import Mathlib

/-!
Shallow embedding of `src/hint_processor/builtin_hint_processor/ec_utils.rs`
from the cairo-vm repository, together with proofs about the claims of the
specification.  Machine integers of the source (`BigUint`, `Felt`) are
modelled as `Nat` with explicit `% P` reductions where the source reduces.
-/

namespace EcUtils

/-- The Cairo prime `p = 2^251 + 17 * 2^192 + 1` (`CAIRO_PRIME` in the source). -/
def P : Nat := 2 ^ 251 + 17 * 2 ^ 192 + 1

/-- Model of `ALPHA` from the source (`const ALPHA: u32 = 1`). -/
def ALPHA : Nat := 1

/-- Model of `BETA` from the source (decimal constant in `lazy_static!`). -/
def BETA : Nat := 3141592653589793238462643383279502884197169399375105820974944592307816406665

/-- Model of `Felt::max_value()`: the largest field element, `P - 1`. -/
def feltMax : Nat := P - 1

/-- Fuel-driven binary modular exponentiation; the fuel bounds the number of
halvings of the exponent.  Models `BigUint::modpow` from the source. -/
def powModAux : Nat → Nat → Nat → Nat → Nat
  | 0, _, _, m => 1 % m
  | fuel + 1, a, n, m =>
    if n = 0 then 1 % m
    else
      let r := powModAux fuel (a * a % m) (n / 2) m
      if n % 2 = 1 then r * a % m else r

/-- Computes `a ^ n % m` by binary exponentiation. -/
def powMod (a n m : Nat) : Nat := powModAux (n + 1) a n m

theorem powModAux_correct (m : Nat) :
    ∀ fuel n a, n < 2 ^ fuel → powModAux fuel a n m = a ^ n % m := by
  intro fuel
  induction fuel with
  | zero =>
    intro n a hn
    interval_cases n
    simp [powModAux]
  | succ f ih =>
    intro n a hn
    by_cases h0 : n = 0
    · simp [powModAux, h0]
    · have hdiv : n / 2 < 2 ^ f := by
        rw [Nat.div_lt_iff_lt_mul (by norm_num : (0:ℕ) < 2)]
        calc n < 2 ^ (f + 1) := hn
          _ = 2 ^ f * 2 := by rw [Nat.pow_succ]
      have hrec := ih (n / 2) (a * a % m) hdiv
      have hsq : (a * a % m) ^ (n / 2) % m = (a * a) ^ (n / 2) % m := by
        rw [Nat.pow_mod, Nat.mod_mod_of_dvd, ← Nat.pow_mod]
        exact dvd_refl m
      have hpow : (a * a) ^ (n / 2) = a ^ (2 * (n / 2)) := by
        rw [two_mul, pow_add, ← mul_pow]
      rcases Nat.mod_two_eq_zero_or_one n with hpar | hpar
      · have hn2 : 2 * (n / 2) = n := by omega
        simp only [powModAux, h0, if_false, hpar]
        norm_num
        rw [hrec, hsq, hpow, hn2]
      · have hn2 : 2 * (n / 2) + 1 = n := by omega
        simp only [powModAux, h0, if_false, hpar, if_true]
        rw [hrec, hsq, Nat.mod_mul_mod, hpow, ← pow_succ, hn2]

theorem powMod_correct (a n m : Nat) : powMod a n m = a ^ n % m :=
  powModAux_correct m (n + 1) n a
    (Nat.lt_of_lt_of_le (Nat.lt_two_pow n) (Nat.pow_le_pow_right (by norm_num) (Nat.le_succ n)))

theorem powMod_lt (a n m : Nat) (hm : 0 < m) : powMod a n m < m := by
  rw [powMod_correct]; exact Nat.mod_lt _ hm

theorem P_pos : 0 < P := by norm_num [P]

theorem one_lt_P : 1 < P := by norm_num [P]

/-! ### SHA-256 (executable model of the `sha2` crate used by the source)

The hint calls `Sha256::new`/`update`/`finalize_reset`; each `finalize_reset`
yields the SHA-256 digest of the bytes fed since the previous reset, so each
hash below is an independent SHA-256 evaluation.  Bytes are `Nat`s below 256,
words are `Nat`s below `2^32`. -/

/-- Right rotation of a 32-bit word. -/
def rotr (n x : Nat) : Nat := ((x >>> n) ||| (x <<< (32 - n))) &&& 0xffffffff

/-- Logical right shift. -/
def shr (n x : Nat) : Nat := x >>> n

/-- The 64 SHA-256 round constants. -/
def shaK : List Nat := [
  1116352408, 1899447441, 3049323471, 3921009573, 961987163, 1508970993,
  2453635748, 2870763221, 3624381080, 310598401, 607225278, 1426881987,
  1925078388, 2162078206, 2614888103, 3248222580, 3835390401, 4022224774,
  264347078, 604807628, 770255983, 1249150122, 1555081692, 1996064986,
  2554220882, 2821834349, 2952996808, 3210313671, 3336571891, 3584528711,
  113926993, 338241895, 666307205, 773529912, 1294757372, 1396182291,
  1695183700, 1986661051, 2177026350, 2456956037, 2730485921, 2820302411,
  3259730800, 3345764771, 3516065817, 3600352804, 4094571909, 275423344,
  430227734, 506948616, 659060556, 883997877, 958139571, 1322822218,
  1537002063, 1747873779, 1955562222, 2024104815, 2227730452, 2361852424,
  2428436474, 2756734187, 3204031479, 3329325298]

/-- The SHA-256 initial hash state. -/
def shaH0 : List Nat := [
  1779033703, 3144134277, 1013904242, 2773480762,
  1359893119, 2600822924, 528734635, 1541459225]

/-- Pack big-endian bytes into 32-bit words. -/
def toWords : List Nat → List Nat
  | b0 :: b1 :: b2 :: b3 :: rest =>
    ((((b0 <<< 8) ||| b1) <<< 8 ||| b2) <<< 8 ||| b3) :: toWords rest
  | _ => []

/-- SHA-256 `σ₀`. -/
def smallSigma0 (x : Nat) : Nat := rotr 7 x ^^^ rotr 18 x ^^^ shr 3 x

/-- SHA-256 `σ₁`. -/
def smallSigma1 (x : Nat) : Nat := rotr 17 x ^^^ rotr 19 x ^^^ shr 10 x

/-- SHA-256 `Σ₀`. -/
def bigSigma0 (x : Nat) : Nat := rotr 2 x ^^^ rotr 13 x ^^^ rotr 22 x

/-- SHA-256 `Σ₁`. -/
def bigSigma1 (x : Nat) : Nat := rotr 6 x ^^^ rotr 11 x ^^^ rotr 25 x

/-- SHA-256 choice function. -/
def chFn (x y z : Nat) : Nat := (x &&& y) ^^^ ((x ^^^ 0xffffffff) &&& z)

/-- SHA-256 majority function. -/
def majFn (x y z : Nat) : Nat := (x &&& y) ^^^ (x &&& z) ^^^ (y &&& z)

/-- Extend the 16 message words to 64 (fuel is the number of words to add). -/
def schedule : Nat → List Nat → List Nat
  | 0, w => w
  | fuel + 1, w =>
    let n := w.length
    let nw := (smallSigma1 (w.getD (n - 2) 0) + w.getD (n - 7) 0 +
               smallSigma0 (w.getD (n - 15) 0) + w.getD (n - 16) 0) &&& 0xffffffff
    schedule fuel (w ++ [nw])

/-- One SHA-256 compression round on the 8-word state. -/
def compressStep (st : List Nat) (kw : Nat × Nat) : List Nat :=
  match st with
  | [a, b, c, d, e, f, g, h] =>
    let t1 := (h + bigSigma1 e + chFn e f g + kw.1 + kw.2) &&& 0xffffffff
    let t2 := (bigSigma0 a + majFn a b c) &&& 0xffffffff
    [(t1 + t2) &&& 0xffffffff, a, b, c, (d + t1) &&& 0xffffffff, e, f, g]
  | other => other

/-- Process one 64-byte block. -/
def processBlock (h : List Nat) (block : List Nat) : List Nat :=
  let w := schedule 48 (toWords block)
  let st := (shaK.zip w).foldl compressStep h
  (h.zip st).map (fun pr => (pr.1 + pr.2) &&& 0xffffffff)

/-- Split a byte list into 64-byte chunks (fuel-driven). -/
def chunks : Nat → List Nat → List (List Nat)
  | 0, _ => []
  | fuel + 1, l => if l.isEmpty then [] else l.take 64 :: chunks fuel (l.drop 64)

/-- SHA-256 padding: `0x80`, zeros to 56 mod 64, then 64-bit big-endian bit length. -/
def padMessage (msg : List Nat) : List Nat :=
  let len := msg.length
  let k := (119 - len % 64) % 64
  let bitLen := 8 * len
  msg ++ [0x80] ++ List.replicate k 0 ++
    [(bitLen >>> 56) &&& 255, (bitLen >>> 48) &&& 255, (bitLen >>> 40) &&& 255,
     (bitLen >>> 32) &&& 255, (bitLen >>> 24) &&& 255, (bitLen >>> 16) &&& 255,
     (bitLen >>> 8) &&& 255, bitLen &&& 255]

/-- SHA-256 of a byte string, as 32 big-endian bytes. -/
def sha256 (msg : List Nat) : List Nat :=
  let padded := padMessage msg
  let hFinal := (chunks (padded.length + 1) padded).foldl processBlock shaH0
  hFinal.flatMap (fun w => [(w >>> 24) &&& 255, (w >>> 16) &&& 255, (w >>> 8) &&& 255, w &&& 255])

/-! ### Byte serialization (`to_padded_bytes` and `BigUint` conversions) -/

/-- Model of `BigUint::from_bytes_be`: big-endian bytes to an unsigned integer. -/
def beBytesToNat (l : List Nat) : Nat := l.foldl (fun acc b => acc * 256 + b) 0

/-- Minimal big-endian digits of `n` (fuel-driven; empty for `n = 0`). -/
def toBytesBeAux : Nat → Nat → List Nat
  | 0, _ => []
  | fuel + 1, n => if n = 0 then [] else toBytesBeAux fuel (n / 256) ++ [n % 256]

/-- Model of `Felt::to_bytes_be`: minimal big-endian encoding, `[0]` for zero
(as `BigUint::to_bytes_be` produces). -/
def feltToBytesBe (n : Nat) : List Nat :=
  if n = 0 then [0] else toBytesBeAux 32 n

/-- Model of `to_padded_bytes` from the source: left-pad the minimal big-endian
encoding with zeros to 32 bytes.  The source computes `32 - felt_to_bytes.len()`
with `usize` subtraction, which panics on underflow; `Nat` subtraction truncates
instead, and `to_padded_bytes_spec` shows the underflow never happens. -/
def to_padded_bytes (n : Nat) : List Nat :=
  List.replicate (32 - (feltToBytesBe n).length) 0 ++ feltToBytesBe n

/-! ### Quadratic residues and the square root (`math_utils::sqrt`) -/

/-- Model of `is_quad_residue` from the source: `true` for `a < 2`, otherwise
Euler's criterion with exponent `Felt::max_value() / 2`. -/
def is_quad_residue (a : Nat) : Bool :=
  if a < 2 then true else powMod a (feltMax / 2) P == 1

/-- Least `i` with `t^(2^i) ≡ 1 (mod P)`, searching by repeated squaring
(fuel-bounded). -/
def tsFindI : Nat → Nat → Nat
  | _, 0 => 0
  | t, fuel + 1 => if t % P == 1 then 0 else tsFindI (t * t % P) fuel + 1

/-- The Tonelli–Shanks main loop.  Arguments: fuel, the current 2-adic level
`m`, the current cofactor `c`, the current `t`, and the current root candidate
`r`. -/
def tsLoop : Nat → Nat → Nat → Nat → Nat → Nat
  | 0, _, _, _, r => r
  | fuel + 1, m, c, t, r =>
    if t % P == 1 then r
    else
      let i := tsFindI t m
      let b := powMod c (2 ^ (m - i - 1)) P
      tsLoop fuel i (b * b % P) (t * (b * b % P) % P) (r * b % P)

/-- The odd part `s` of `P - 1 = 2^192 * s`. -/
def tsOdd : Nat := (P - 1) / 2 ^ 192

/-- Modelled from the spec: `math_utils::sqrt` is used by the source but its
code is not part of this tree.  Per the spec (§4.3, §9) it is a deterministic
square root of a field element assumed to be a quadratic residue; the spec
names Tonelli–Shanks returning the smaller of the two roots as the conforming
choice, which is implemented here (with nonresidue witness 3). -/
def sqrtF (a : Nat) : Nat :=
  if a % P == 0 then 0
  else
    let c := powMod 3 tsOdd P
    let t := powMod a tsOdd P
    let r0 := powMod a ((tsOdd + 1) / 2) P
    let r := tsLoop 193 192 c t r0
    min r (P - r)

/-! ### The hint error surface -/

/-- The hint-level errors reachable from the modelled routines.  `memoryError`
models the VM-level failure of `insert_value` (a write to an occupied cell with
a different value), which the source propagates with `?`. -/
inductive HintError where
  | RandomEcPointNotOnCurve
  | IdentifierHasNoMember (name member : String)
  | UnknownIdentifier (name : String)
  | IdentifierNotInteger (name : String)
  | memoryError
  deriving DecidableEq, Repr

/-! ### `random_ec_point` (the derivation loop) -/

/-- Model of `recover_y` from the source: `y² = x³ + ALPHA·x + BETA` with the
cube reduced modulo `P` and the sum left unreduced, tested by
`is_quad_residue`, then `sqrt(Felt::from(y_squared))` (so the square root is
taken of the reduced value). -/
def recover_y (x : Nat) : Option Nat :=
  let ySquared := powMod x 3 P + ALPHA * x + BETA
  if is_quad_residue ySquared then some (sqrtF (ySquared % P)) else none

/-- The 41-byte block fed to the inner hash at iteration `i`: the seed digest
tail `seed[1..]`, the single little-endian byte of `i as u8`, and
`10 - 1` zero bytes. -/
def blockFor (seed : List Nat) (i : Nat) : List Nat :=
  seed.drop 1 ++ [i % 256] ++ List.replicate (10 - 1) 0

/-- The candidate `x` of iteration `i`: the inner digest as a big-endian
unsigned integer (not reduced modulo `P`). -/
def xCand (seed : List Nat) (i : Nat) : Nat := beBytesToNat (sha256 (blockFor seed i))

/-- Computes `seed[0] & 1`, the sign bit of the seed digest. -/
def signBit (seed : List Nat) : Nat := seed.headD 0 &&& 1

/-- Model of `Felt::from(y * (-1)^sign)`: the representative of `±y` in `[0, P)`. -/
def applySign (sign y : Nat) : Nat :=
  if sign = 0 then y % P else (P - y % P) % P

/-- Packaging of one iteration's outcome (`None` continues the loop). -/
def tryAux (sign xv : Nat) : Option Nat → Option (Nat × Nat)
  | some y => some (xv % P, applySign sign y)
  | none => none

/-- One iteration of the sampling loop: on a residue, the returned point is
`(Felt::from(x), Felt::from(y · (−1)^(seed[0] & 1)))`. -/
def tryIter (seed : List Nat) (i : Nat) : Option (Nat × Nat) :=
  tryAux (signBit seed) (xCand seed i) (recover_y (xCand seed i))

/-- Early-return step of the loop: a hit returns the point, otherwise
the remaining iterations run. -/
def loopStep (res : Option (Nat × Nat)) (rest : Unit → Except HintError (Nat × Nat)) :
    Except HintError (Nat × Nat) :=
  match res with
  | some pt => .ok pt
  | none => rest ()

/-- The `for i in 0..100` loop with early return (fuel counts the remaining
iterations, `i` is the current index). -/
def loopGo (seed : List Nat) : Nat → Nat → Except HintError (Nat × Nat)
  | 0, _ => .error .RandomEcPointNotOnCurve
  | fuel + 1, i => loopStep (tryIter seed i) (fun _ => loopGo seed fuel (i + 1))

theorem tryIter_unfold (seed : List Nat) (i : Nat) :
    tryIter seed i = tryAux (signBit seed) (xCand seed i) (recover_y (xCand seed i)) := rfl

theorem tryAux_some (sign xv y : Nat) :
    tryAux sign xv (some y) = some (xv % P, applySign sign y) := rfl

theorem tryAux_none (sign xv : Nat) : tryAux sign xv none = none := rfl

theorem loopGo_zero (seed : List Nat) (i : Nat) :
    loopGo seed 0 i = .error .RandomEcPointNotOnCurve := rfl

theorem loopGo_succ (seed : List Nat) (fuel i : Nat) :
    loopGo seed (fuel + 1) i = loopStep (tryIter seed i) (fun _ => loopGo seed fuel (i + 1)) := rfl

theorem loopStep_some (pt : Nat × Nat) (rest : Unit → Except HintError (Nat × Nat)) :
    loopStep (some pt) rest = .ok pt := rfl

theorem loopStep_none (rest : Unit → Except HintError (Nat × Nat)) :
    loopStep none rest = rest () := rfl

/-- The derivation loop run on a seed digest. -/
def randomEcPointDigest (seed : List Nat) : Except HintError (Nat × Nat) :=
  loopGo seed 100 0

/-- Model of `random_ec_point` from the source: hash the seed bytes, then run
the 100-iteration sampling loop. -/
def random_ec_point (seedBytes : List Nat) : Except HintError (Nat × Nat) :=
  randomEcPointDigest (sha256 seedBytes)

/-! ### VM memory model

Modelled from the spec: the VM memory interface (`resolve_address`,
`read_integer`, `write_integer`, address arithmetic — spec §6) is external to
the source file under verification, so it is modelled here.  A cell holds
either an integer (field element) or an address; a write may fail (spec §6
gives `write_integer → () | error`), concretely when the cell is already
occupied by a different value, which is the write-once discipline of the
surrounding VM. -/

/-- A memory cell value: an integer (field element) or an address. -/
inductive MemVal where
  | int (n : Nat)
  | addr (a : Nat)
  deriving DecidableEq, Repr

/-- Memory: an association list from addresses to cell values. -/
def Memory := List (Nat × MemVal)

instance : DecidableEq Memory := by
  unfold Memory
  infer_instance

/-- Look up the value stored at an address. -/
def memGet (mem : Memory) (a : Nat) : Option MemVal :=
  (mem.find? (fun pr => pr.1 == a)).map Prod.snd

/-- Write dispatch on the current cell content. -/
def memInsertAux (mem : Memory) (a : Nat) (v : MemVal) : Option MemVal → Except HintError Memory
  | none => .ok ((a, v) :: mem)
  | some w => if w = v then .ok mem else .error .memoryError

/-- Modelled from the spec: `write_integer` / `insert_value`.  Writing to a
free cell stores the value; rewriting an identical value is a no-op; writing a
different value to an occupied cell fails. -/
def memInsert (mem : Memory) (a : Nat) (v : MemVal) : Except HintError Memory :=
  memInsertAux mem a v (memGet mem a)

/-- Read a cell content as an integer. -/
def getIntegerAux : Option MemVal → Option Nat
  | some (.int n) => some n
  | _ => none

/-- Model of `vm.get_integer`: read a cell as an integer; `none` when the cell is
missing or holds an address. -/
def getInteger (mem : Memory) (a : Nat) : Option Nat :=
  getIntegerAux (memGet mem a)

/-- Identifier table: a map from identifier names to base addresses. -/
def Ids := List (String × Nat)

/-- Resolution dispatch on the table lookup. -/
def getRelocatableAux (name : String) : Option (String × Nat) → Except HintError Nat
  | some pr => .ok pr.2
  | none => .error (.UnknownIdentifier name)

/-- Modelled from the spec: `resolve_address` /
`get_relocatable_from_var_name` — resolve an identifier name to its base
address. -/
def getRelocatable (ids : Ids) (name : String) : Except HintError Nat :=
  getRelocatableAux name (ids.find? (fun pr => pr.1 == name))

/-- Read-integer dispatch on the cell lookup. -/
def getIntFromAux2 (name : String) : Option Nat → Except HintError Nat
  | some n => .ok n
  | none => .error (.IdentifierNotInteger name)

/-- Read-integer dispatch on the address resolution. -/
def getIntFromAux (mem : Memory) (name : String) : Except HintError Nat → Except HintError Nat
  | .error e => .error e
  | .ok a => getIntFromAux2 name (getInteger mem a)

/-- Modelled from the spec: `get_integer_from_var_name` — resolve a name and
read its cell as an integer. -/
def getIntegerFromVarName (ids : Ids) (mem : Memory) (name : String) :
    Except HintError Nat :=
  getIntFromAux mem name (getRelocatable ids name)

/-- Struct-read dispatch on the two cell reads (in the source, a failed `x`
read reports before `y` is read; the reported error is the same). -/
def ecPointAux2 (name : String) : Option Nat → Option Nat → Except HintError (Nat × Nat)
  | none, _ => .error (.IdentifierHasNoMember name "x")
  | some _, none => .error (.IdentifierHasNoMember name "x")
  | some x, some y => .ok (x, y)

/-- Struct-read dispatch on the address resolution. -/
def ecPointAux (mem : Memory) (name : String) :
    Except HintError Nat → Except HintError (Nat × Nat)
  | .error e => .error e
  | .ok pointAddr =>
    ecPointAux2 name (getInteger mem pointAddr) (getInteger mem (pointAddr + 1))

/-- Model of `EcPoint::from_var_name` from the source: read the struct's two
consecutive cells as integers; either failure is reported as
`IdentifierHasNoMember(name, "x")` (the source maps both `map_err`s to the
member string `"x"`). -/
def ecPointFromVarName (ids : Ids) (mem : Memory) (name : String) :
    Except HintError (Nat × Nat) :=
  ecPointAux mem name (getRelocatable ids name)

/-- The 160-byte seed bundle of the hint: the concatenation of the 32-byte
padded encodings of `p.x, p.y, m, q.x, q.y`. -/
def seedBytesOf (px py m qx qy : Nat) : List Nat :=
  ([px, py, m, qx, qy].map to_padded_bytes).flatten

/-!
`random_ec_point_hint` is modelled in sequencing style: each `hint…` helper
performs the next fallible step of the source function on the result of the
previous one, so the `?`-operator control flow (including the mutated memory
carried past a failed write) is explicit.
-/

/-- Outcome of the second write: on failure the first write remains. -/
def hintWrite2 (mem1 : Memory) : Except HintError Memory → Except HintError Unit × Memory
  | .error e => (.error e, mem1)
  | .ok mem2 => (.ok (), mem2)

/-- Outcome of the first write, then the second write to `s + 1`. -/
def hintWrite1 (mem : Memory) (sAddr y : Nat) :
    Except HintError Memory → Except HintError Unit × Memory
  | .error e => (.error e, mem)
  | .ok mem1 => hintWrite2 mem1 (memInsert mem1 (sAddr + 1) (.int y))

/-- After `s` is resolved: write `x` at `s` and `y` at `s + 1`. -/
def hintS (mem : Memory) (x y : Nat) : Except HintError Nat → Except HintError Unit × Memory
  | .error e => (.error e, mem)
  | .ok sAddr => hintWrite1 mem sAddr y (memInsert mem sAddr (.int x))

/-- After the point is derived: resolve `s` and write. -/
def hintPoint (ids : Ids) (mem : Memory) :
    Except HintError (Nat × Nat) → Except HintError Unit × Memory
  | .error e => (.error e, mem)
  | .ok (x, y) => hintS mem x y (getRelocatable ids "s")

/-- After `m` is read: derive the point from the seed bundle. -/
def hintM (ids : Ids) (mem : Memory) (px py qx qy : Nat) :
    Except HintError Nat → Except HintError Unit × Memory
  | .error e => (.error e, mem)
  | .ok m => hintPoint ids mem (random_ec_point (seedBytesOf px py m qx qy))

/-- After `q` is read: read `m`. -/
def hintQ (ids : Ids) (mem : Memory) (px py : Nat) :
    Except HintError (Nat × Nat) → Except HintError Unit × Memory
  | .error e => (.error e, mem)
  | .ok (qx, qy) => hintM ids mem px py qx qy (getIntegerFromVarName ids mem "m")

/-- After `p` is read: read `q`. -/
def hintP (ids : Ids) (mem : Memory) :
    Except HintError (Nat × Nat) → Except HintError Unit × Memory
  | .error e => (.error e, mem)
  | .ok (px, py) => hintQ ids mem px py (ecPointFromVarName ids mem "q")

/-- Model of `random_ec_point_hint` from the source: read `p`, `q`, `m`, build
the seed, derive the point, then write `s.x` and `s.y`.  The pair returned is
(result, memory after the call); the memory reflects every write performed
before an error, as the source works on `&mut VirtualMachine`. -/
def random_ec_point_hint (ids : Ids) (mem : Memory) :
    Except HintError Unit × Memory :=
  hintP ids mem (ecPointFromVarName ids mem "p")

/-! ### Primality of the Cairo prime

`P - 1 = 2^192 · 5 · 7 · 98714381 · 166848103`, and `3` generates
`(ZMod P)ˣ`, so a Lucas certificate applies. -/

instance : NeZero P := ⟨by norm_num [P]⟩

instance : Fact (1 < P) := ⟨one_lt_P⟩

theorem powMod_cast (a n : Nat) : ((powMod a n P : Nat) : ZMod P) = (a : ZMod P) ^ n := by
  rw [powMod_correct, ZMod.natCast_mod, Nat.cast_pow]

theorem zmod_pow_eq_one_iff (a n : Nat) : (a : ZMod P) ^ n = 1 ↔ powMod a n P = 1 := by
  rw [← powMod_cast]
  constructor
  · intro h
    have h2 := (ZMod.natCast_eq_natCast_iff' (powMod a n P) 1 P).mp (by exact_mod_cast h)
    rwa [Nat.mod_eq_of_lt (powMod_lt a n P P_pos), Nat.mod_eq_of_lt one_lt_P] at h2
  · intro h
    rw [h]
    norm_cast

theorem P_sub_one_factorization :
    P - 1 = 2 ^ 192 * (5 * (7 * (98714381 * 166848103))) := by
  norm_num [P]

set_option maxRecDepth 40000 in
theorem three_pow_card_sub_one : powMod 3 (P - 1) P = 1 := by decide

set_option maxRecDepth 40000 in
theorem three_pow_div_two : powMod 3 ((P - 1) / 2) P = P - 1 := by decide

set_option maxRecDepth 40000 in
theorem three_pow_div_five : powMod 3 ((P - 1) / 5) P ≠ 1 := by decide

set_option maxRecDepth 40000 in
theorem three_pow_div_seven : powMod 3 ((P - 1) / 7) P ≠ 1 := by decide

set_option maxRecDepth 40000 in
theorem three_pow_div_f1 : powMod 3 ((P - 1) / 98714381) P ≠ 1 := by decide

set_option maxRecDepth 40000 in
theorem three_pow_div_f2 : powMod 3 ((P - 1) / 166848103) P ≠ 1 := by decide

theorem powMod_cast_any (M a n : Nat) :
    ((powMod a n M : Nat) : ZMod M) = ((a : Nat) : ZMod M) ^ n := by
  rw [powMod_correct, ZMod.natCast_mod, Nat.cast_pow]

theorem zmod_pow_eq_one_iff_any (M a n : Nat) (hM : 1 < M) :
    ((a : Nat) : ZMod M) ^ n = 1 ↔ powMod a n M = 1 := by
  rw [← powMod_cast_any]
  constructor
  · intro h
    have h2 := (ZMod.natCast_eq_natCast_iff' (powMod a n M) 1 M).mp (by exact_mod_cast h)
    rwa [Nat.mod_eq_of_lt (powMod_lt a n M (by omega)), Nat.mod_eq_of_lt hM] at h2
  · intro h
    rw [h]
    norm_cast

theorem prime_1233929 : Nat.Prime 1233929 := by
  apply lucas_primality 1233929 ((6 : Nat) : ZMod 1233929)
  · exact (zmod_pow_eq_one_iff_any 1233929 6 (1233929 - 1) (by norm_num)).mpr (by decide)
  · intro q hq hdvd
    have hfac : (1233929 : Nat) - 1 = 2 ^ 3 * (17 * (43 * 211)) := by norm_num
    rw [hfac] at hdvd
    have hq4 : q = 2 ∨ q = 17 ∨ q = 43 ∨ q = 211 := by
      rcases (Nat.Prime.dvd_mul hq).mp hdvd with h | h
      · exact Or.inl ((Nat.prime_dvd_prime_iff_eq hq Nat.prime_two).mp
          (Nat.Prime.dvd_of_dvd_pow hq h))
      · rcases (Nat.Prime.dvd_mul hq).mp h with h | h
        · exact Or.inr (Or.inl ((Nat.prime_dvd_prime_iff_eq hq (by norm_num)).mp h))
        · rcases (Nat.Prime.dvd_mul hq).mp h with h | h
          · exact Or.inr (Or.inr (Or.inl ((Nat.prime_dvd_prime_iff_eq hq (by norm_num)).mp h)))
          · exact Or.inr (Or.inr (Or.inr ((Nat.prime_dvd_prime_iff_eq hq (by norm_num)).mp h)))
    intro hone
    have hpm := (zmod_pow_eq_one_iff_any 1233929 6 ((1233929 - 1) / q) (by norm_num)).mp hone
    rcases hq4 with rfl | rfl | rfl | rfl
    · exact absurd hpm (by decide)
    · exact absurd hpm (by decide)
    · exact absurd hpm (by decide)
    · exact absurd hpm (by decide)

theorem prime_2467859 : Nat.Prime 2467859 := by
  apply lucas_primality 2467859 ((2 : Nat) : ZMod 2467859)
  · exact (zmod_pow_eq_one_iff_any 2467859 2 (2467859 - 1) (by norm_num)).mpr (by decide)
  · intro q hq hdvd
    have hfac : (2467859 : Nat) - 1 = 2 * 1233929 := by norm_num
    rw [hfac] at hdvd
    have hq2 : q = 2 ∨ q = 1233929 := by
      rcases (Nat.Prime.dvd_mul hq).mp hdvd with h | h
      · exact Or.inl ((Nat.prime_dvd_prime_iff_eq hq Nat.prime_two).mp h)
      · exact Or.inr ((Nat.prime_dvd_prime_iff_eq hq prime_1233929).mp h)
    intro hone
    have hpm := (zmod_pow_eq_one_iff_any 2467859 2 ((2467859 - 1) / q) (by norm_num)).mp hone
    rcases hq2 with rfl | rfl
    · exact absurd hpm (by decide)
    · exact absurd hpm (by decide)

theorem prime_4935719 : Nat.Prime 4935719 := by
  apply lucas_primality 4935719 ((17 : Nat) : ZMod 4935719)
  · exact (zmod_pow_eq_one_iff_any 4935719 17 (4935719 - 1) (by norm_num)).mpr (by decide)
  · intro q hq hdvd
    have hfac : (4935719 : Nat) - 1 = 2 * 2467859 := by norm_num
    rw [hfac] at hdvd
    have hq2 : q = 2 ∨ q = 2467859 := by
      rcases (Nat.Prime.dvd_mul hq).mp hdvd with h | h
      · exact Or.inl ((Nat.prime_dvd_prime_iff_eq hq Nat.prime_two).mp h)
      · exact Or.inr ((Nat.prime_dvd_prime_iff_eq hq prime_2467859).mp h)
    intro hone
    have hpm := (zmod_pow_eq_one_iff_any 4935719 17 ((4935719 - 1) / q) (by norm_num)).mp hone
    rcases hq2 with rfl | rfl
    · exact absurd hpm (by decide)
    · exact absurd hpm (by decide)

theorem prime_98714381 : Nat.Prime 98714381 := by
  apply lucas_primality 98714381 ((2 : Nat) : ZMod 98714381)
  · exact (zmod_pow_eq_one_iff_any 98714381 2 (98714381 - 1) (by norm_num)).mpr (by decide)
  · intro q hq hdvd
    have hfac : (98714381 : Nat) - 1 = 2 ^ 2 * (5 * 4935719) := by norm_num
    rw [hfac] at hdvd
    have hq3 : q = 2 ∨ q = 5 ∨ q = 4935719 := by
      rcases (Nat.Prime.dvd_mul hq).mp hdvd with h | h
      · exact Or.inl ((Nat.prime_dvd_prime_iff_eq hq Nat.prime_two).mp
          (Nat.Prime.dvd_of_dvd_pow hq h))
      · rcases (Nat.Prime.dvd_mul hq).mp h with h | h
        · exact Or.inr (Or.inl ((Nat.prime_dvd_prime_iff_eq hq (by norm_num)).mp h))
        · exact Or.inr (Or.inr ((Nat.prime_dvd_prime_iff_eq hq prime_4935719).mp h))
    intro hone
    have hpm := (zmod_pow_eq_one_iff_any 98714381 2 ((98714381 - 1) / q) (by norm_num)).mp hone
    rcases hq3 with rfl | rfl | rfl
    · exact absurd hpm (by decide)
    · exact absurd hpm (by decide)
    · exact absurd hpm (by decide)

theorem prime_9269339 : Nat.Prime 9269339 := by
  apply lucas_primality 9269339 ((6 : Nat) : ZMod 9269339)
  · exact (zmod_pow_eq_one_iff_any 9269339 6 (9269339 - 1) (by norm_num)).mpr (by decide)
  · intro q hq hdvd
    have hfac : (9269339 : Nat) - 1 = 2 * (13 * (43 * 8291)) := by norm_num
    rw [hfac] at hdvd
    have hq4 : q = 2 ∨ q = 13 ∨ q = 43 ∨ q = 8291 := by
      rcases (Nat.Prime.dvd_mul hq).mp hdvd with h | h
      · exact Or.inl ((Nat.prime_dvd_prime_iff_eq hq Nat.prime_two).mp h)
      · rcases (Nat.Prime.dvd_mul hq).mp h with h | h
        · exact Or.inr (Or.inl ((Nat.prime_dvd_prime_iff_eq hq (by norm_num)).mp h))
        · rcases (Nat.Prime.dvd_mul hq).mp h with h | h
          · exact Or.inr (Or.inr (Or.inl ((Nat.prime_dvd_prime_iff_eq hq (by norm_num)).mp h)))
          · exact Or.inr (Or.inr (Or.inr ((Nat.prime_dvd_prime_iff_eq hq (by norm_num)).mp h)))
    intro hone
    have hpm := (zmod_pow_eq_one_iff_any 9269339 6 ((9269339 - 1) / q) (by norm_num)).mp hone
    rcases hq4 with rfl | rfl | rfl | rfl
    · exact absurd hpm (by decide)
    · exact absurd hpm (by decide)
    · exact absurd hpm (by decide)
    · exact absurd hpm (by decide)

theorem prime_166848103 : Nat.Prime 166848103 := by
  apply lucas_primality 166848103 ((6 : Nat) : ZMod 166848103)
  · exact (zmod_pow_eq_one_iff_any 166848103 6 (166848103 - 1) (by norm_num)).mpr (by decide)
  · intro q hq hdvd
    have hfac : (166848103 : Nat) - 1 = 2 * (3 ^ 2 * 9269339) := by norm_num
    rw [hfac] at hdvd
    have hq3 : q = 2 ∨ q = 3 ∨ q = 9269339 := by
      rcases (Nat.Prime.dvd_mul hq).mp hdvd with h | h
      · exact Or.inl ((Nat.prime_dvd_prime_iff_eq hq Nat.prime_two).mp h)
      · rcases (Nat.Prime.dvd_mul hq).mp h with h | h
        · exact Or.inr (Or.inl ((Nat.prime_dvd_prime_iff_eq hq Nat.prime_three).mp
            (Nat.Prime.dvd_of_dvd_pow hq h)))
        · exact Or.inr (Or.inr ((Nat.prime_dvd_prime_iff_eq hq prime_9269339).mp h))
    intro hone
    have hpm := (zmod_pow_eq_one_iff_any 166848103 6 ((166848103 - 1) / q) (by norm_num)).mp hone
    rcases hq3 with rfl | rfl | rfl
    · exact absurd hpm (by decide)
    · exact absurd hpm (by decide)
    · exact absurd hpm (by decide)

theorem P_prime : Nat.Prime P := by
  have hf1 : Nat.Prime 98714381 := prime_98714381
  have hf2 : Nat.Prime 166848103 := prime_166848103
  apply lucas_primality P ((3 : Nat) : ZMod P)
  · exact (zmod_pow_eq_one_iff 3 (P - 1)).mpr three_pow_card_sub_one
  · intro q hq hdvd
    rw [P_sub_one_factorization] at hdvd
    have hq2 : q = 2 ∨ q = 5 ∨ q = 7 ∨ q = 98714381 ∨ q = 166848103 := by
      rcases (Nat.Prime.dvd_mul hq).mp hdvd with h | h
      · exact Or.inl ((Nat.prime_dvd_prime_iff_eq hq Nat.prime_two).mp
          (Nat.Prime.dvd_of_dvd_pow hq h))
      · rcases (Nat.Prime.dvd_mul hq).mp h with h | h
        · exact Or.inr (Or.inl ((Nat.prime_dvd_prime_iff_eq hq (by norm_num)).mp h))
        · rcases (Nat.Prime.dvd_mul hq).mp h with h | h
          · exact Or.inr (Or.inr (Or.inl ((Nat.prime_dvd_prime_iff_eq hq (by norm_num)).mp h)))
          · rcases (Nat.Prime.dvd_mul hq).mp h with h | h
            · exact Or.inr (Or.inr (Or.inr (Or.inl
                ((Nat.prime_dvd_prime_iff_eq hq hf1).mp h))))
            · exact Or.inr (Or.inr (Or.inr (Or.inr
                ((Nat.prime_dvd_prime_iff_eq hq hf2).mp h))))
    intro hone
    rcases hq2 with rfl | rfl | rfl | rfl | rfl
    · have := (zmod_pow_eq_one_iff 3 ((P - 1) / 2)).mp hone
      rw [three_pow_div_two] at this
      exact absurd this (by norm_num [P])
    · exact three_pow_div_five ((zmod_pow_eq_one_iff 3 ((P - 1) / 5)).mp hone)
    · exact three_pow_div_seven ((zmod_pow_eq_one_iff 3 ((P - 1) / 7)).mp hone)
    · exact three_pow_div_f1 ((zmod_pow_eq_one_iff 3 ((P - 1) / 98714381)).mp hone)
    · exact three_pow_div_f2 ((zmod_pow_eq_one_iff 3 ((P - 1) / 166848103)).mp hone)

instance : Fact (Nat.Prime P) := ⟨P_prime⟩

/-! ### Euler's criterion in terms of the model -/

/-- Asserts that `a` is a quadratic residue modulo `P`: some `b` in `[0, P)` squares to `a`. -/
def isQRNat (a : Nat) : Prop := ∃ b, b < P ∧ b * b % P = a % P

theorem natCast_eq_one_iff (t : Nat) : ((t : Nat) : ZMod P) = 1 ↔ t % P = 1 := by
  constructor
  · intro h
    have h2 := (ZMod.natCast_eq_natCast_iff' t 1 P).mp (by exact_mod_cast h)
    rwa [Nat.mod_eq_of_lt one_lt_P] at h2
  · intro h
    rw [← ZMod.natCast_mod, h, Nat.cast_one]

theorem isQRNat_iff_isSquare (a : Nat) : isQRNat a ↔ IsSquare ((a : Nat) : ZMod P) := by
  constructor
  · rintro ⟨b, _, hb⟩
    refine ⟨(b : ZMod P), ?_⟩
    have : ((b * b % P : Nat) : ZMod P) = ((a % P : Nat) : ZMod P) := by rw [hb]
    rw [ZMod.natCast_mod, ZMod.natCast_mod, Nat.cast_mul] at this
    rw [← this]
  · rintro ⟨r, hr⟩
    refine ⟨r.val, ZMod.val_lt r, ?_⟩
    have hv : ((a : Nat) : ZMod P).val = a % P := ZMod.val_natCast a
    rw [← hv, hr, ZMod.val_mul]

theorem natCast_ne_zero_of_lt (a : Nat) (h0 : a ≠ 0) (ha : a < P) :
    ((a : Nat) : ZMod P) ≠ 0 := by
  intro h
  have := (ZMod.natCast_zmod_eq_zero_iff_dvd a P).mp h
  exact h0 (Nat.eq_zero_of_dvd_of_lt this ha)

theorem P_div_two_eq : P / 2 = (P - 1) / 2 := by norm_num [P]

theorem euler_nat (a : Nat) (h0 : ((a : Nat) : ZMod P) ≠ 0) :
    IsSquare ((a : Nat) : ZMod P) ↔ powMod a ((P - 1) / 2) P = 1 := by
  rw [ZMod.euler_criterion P h0, P_div_two_eq, zmod_pow_eq_one_iff]

/-! ### Correctness of the modelled Tonelli–Shanks square root -/

theorem natCast_sq_mod (t : Nat) : ((t * t % P : Nat) : ZMod P) = ((t : Nat) : ZMod P) ^ 2 := by
  rw [ZMod.natCast_mod, Nat.cast_mul, pow_two]

theorem tsFindI_spec : ∀ fuel t j, j ≤ fuel → ((t : Nat) : ZMod P) ^ 2 ^ j = 1 →
    ((t : Nat) : ZMod P) ^ 2 ^ tsFindI t fuel = 1 ∧ tsFindI t fuel ≤ j ∧
      ∀ k, k < tsFindI t fuel → ((t : Nat) : ZMod P) ^ 2 ^ k ≠ 1 := by
  intro fuel
  induction fuel with
  | zero =>
    intro t j hj ht
    have hj0 : j = 0 := Nat.le_zero.mp hj
    subst hj0
    refine ⟨by simpa [tsFindI] using ht, Nat.le_refl _, ?_⟩
    intro k hk
    simp [tsFindI] at hk
  | succ f ih =>
    intro t j hj ht
    by_cases hg : t % P = 1
    · have h1 : ((t : Nat) : ZMod P) = 1 := (natCast_eq_one_iff t).mpr hg
      refine ⟨by simpa [tsFindI, hg] using h1, ?_, ?_⟩
      · simp [tsFindI, hg]
      · simp [tsFindI, hg]
    · have ht1 : ((t : Nat) : ZMod P) ≠ 1 := fun h => hg ((natCast_eq_one_iff t).mp h)
      have hgne : (t % P == 1) = false := beq_false_of_ne hg
      have hj0 : j ≠ 0 := by
        rintro rfl
        exact ht1 (by simpa using ht)
      obtain ⟨j', rfl⟩ : ∃ j', j = j' + 1 := ⟨j - 1, by omega⟩
      have hstep : ∀ k : Nat, ((t * t % P : Nat) : ZMod P) ^ 2 ^ k =
          ((t : Nat) : ZMod P) ^ 2 ^ (k + 1) := by
        intro k
        rw [natCast_sq_mod, ← pow_mul, pow_succ, Nat.mul_comm]
      have hsq : ((t * t % P : Nat) : ZMod P) ^ 2 ^ j' = 1 := by
        rw [hstep]
        exact ht
      obtain ⟨h1, h2, h3⟩ := ih (t * t % P) j' (by omega) hsq
      have hdef : tsFindI t (f + 1) = tsFindI (t * t % P) f + 1 := by
        simp [tsFindI, hgne]
      refine ⟨?_, by omega, ?_⟩
      · rw [hdef, ← hstep]
        exact h1
      · intro k hk
        rw [hdef] at hk
        match k with
        | 0 => simpa using ht1
        | k' + 1 =>
          intro hcon
          apply h3 k' (by omega)
          rw [hstep]
          exact hcon

theorem tsLoop_lt : ∀ fuel m c t r, r < P → tsLoop fuel m c t r < P := by
  intro fuel
  induction fuel with
  | zero => intro m c t r hr; simpa [tsLoop] using hr
  | succ f ih =>
    intro m c t r hr
    by_cases hg : t % P = 1
    · simpa [tsLoop, hg] using hr
    · have hgne : (t % P == 1) = false := beq_false_of_ne hg
      simp only [tsLoop, hgne]
      exact ih _ _ _ _ (Nat.mod_lt _ P_pos)

theorem tsLoop_correct (a : ZMod P) : ∀ fuel m c t r, 1 ≤ m → m < fuel →
    ((t : Nat) : ZMod P) ^ 2 ^ (m - 1) = 1 →
    ((c : Nat) : ZMod P) ^ 2 ^ (m - 1) = -1 →
    ((r : Nat) : ZMod P) ^ 2 = a * ((t : Nat) : ZMod P) →
    ((tsLoop fuel m c t r : Nat) : ZMod P) ^ 2 = a := by
  intro fuel
  induction fuel with
  | zero => intro m c t r hm hfuel; omega
  | succ f ih =>
    intro m c t r hm hfuel ht hc hr
    by_cases hg : t % P = 1
    · have h1 : ((t : Nat) : ZMod P) = 1 := (natCast_eq_one_iff t).mpr hg
      rw [h1, mul_one] at hr
      simpa [tsLoop, hg] using hr
    · have ht1 : ((t : Nat) : ZMod P) ≠ 1 := fun h => hg ((natCast_eq_one_iff t).mp h)
      have hgne : (t % P == 1) = false := beq_false_of_ne hg
      obtain ⟨hi1, hi2, hi3⟩ := tsFindI_spec m t (m - 1) (by omega) ht
      set i := tsFindI t m with hidef
      have hipos : 1 ≤ i := by
        rcases Nat.eq_zero_or_pos i with h0 | h1
        · rw [h0] at hi1
          simp at hi1
          exact absurd hi1 ht1
        · exact h1
      have hkey : ((t : Nat) : ZMod P) ^ 2 ^ (i - 1) = -1 := by
        have hsq : (((t : Nat) : ZMod P) ^ 2 ^ (i - 1)) * (((t : Nat) : ZMod P) ^ 2 ^ (i - 1)) = 1 := by
          rw [← pow_add]
          have h2 : i - 1 + 1 = i := by omega
          have hexp : 2 ^ (i - 1) + 2 ^ (i - 1) = 2 ^ i :=
            calc 2 ^ (i - 1) + 2 ^ (i - 1) = 2 ^ (i - 1) * 2 := by ring
              _ = 2 ^ (i - 1 + 1) := (pow_succ 2 (i - 1)).symm
              _ = 2 ^ i := by rw [h2]
          rw [hexp]
          exact hi1
        rcases mul_self_eq_one_iff.mp hsq with h | h
        · exact absurd h (hi3 (i - 1) (by omega))
        · exact h
      have hble : i ≤ m - 1 := hi2
      set b := powMod c (2 ^ (m - i - 1)) P with hbdef
      have hbcast : ((b : Nat) : ZMod P) = ((c : Nat) : ZMod P) ^ 2 ^ (m - i - 1) :=
        powMod_cast c (2 ^ (m - i - 1))
      have hc2cast : ((b * b % P : Nat) : ZMod P) = ((c : Nat) : ZMod P) ^ 2 ^ (m - i) := by
        rw [natCast_sq_mod, hbcast, ← pow_mul, ← pow_succ]
        have : m - i - 1 + 1 = m - i := by omega
        rw [this]
      have hcinv : ((b * b % P : Nat) : ZMod P) ^ 2 ^ (i - 1) = -1 := by
        rw [hc2cast, ← pow_mul, ← pow_add]
        have : m - i + (i - 1) = m - 1 := by omega
        rw [this]
        exact hc
      have htinv : ((t * (b * b % P) % P : Nat) : ZMod P) ^ 2 ^ (i - 1) = 1 := by
        rw [ZMod.natCast_mod, Nat.cast_mul, mul_pow, hkey, hcinv]
        norm_num
      have hrinv : ((r * b % P : Nat) : ZMod P) ^ 2 =
          a * ((t * (b * b % P) % P : Nat) : ZMod P) := by
        rw [ZMod.natCast_mod, Nat.cast_mul, mul_pow, hr, ZMod.natCast_mod, Nat.cast_mul,
          natCast_sq_mod]
        ring
      have hstep : tsLoop (f + 1) m c t r =
          tsLoop f i (b * b % P) (t * (b * b % P) % P) (r * b % P) := by
        simp [tsLoop, hgne, ← hidef, ← hbdef]
      rw [hstep]
      exact ih i (b * b % P) (t * (b * b % P) % P) (r * b % P) hipos (by omega) htinv hcinv hrinv

theorem sqrtF_of_zero (a : Nat) (h : a % P = 0) : sqrtF a = 0 := by
  simp [sqrtF, h]

theorem sqrtF_of_ne (a : Nat) (h : a % P ≠ 0) :
    sqrtF a =
      min (tsLoop 193 192 (powMod 3 tsOdd P) (powMod a tsOdd P) (powMod a ((tsOdd + 1) / 2) P))
        (P - tsLoop 193 192 (powMod 3 tsOdd P) (powMod a tsOdd P)
          (powMod a ((tsOdd + 1) / 2) P)) := by
  simp [sqrtF, beq_false_of_ne h]

theorem sqrtF_lt (a : Nat) : sqrtF a < P := by
  by_cases h : a % P = 0
  · rw [sqrtF_of_zero a h]
    exact P_pos
  · rw [sqrtF_of_ne a h]
    exact Nat.lt_of_le_of_lt (Nat.min_le_left _ _)
      (tsLoop_lt 193 192 _ _ _ (powMod_lt a ((tsOdd + 1) / 2) P P_pos))

theorem tsOdd_mul : tsOdd * 2 ^ 191 = (P - 1) / 2 := by norm_num [tsOdd, P]

theorem tsOdd_half : (tsOdd + 1) / 2 * 2 = tsOdd + 1 := by norm_num [tsOdd, P]

theorem natCast_P_sub_one : ((P - 1 : Nat) : ZMod P) = -1 := by
  have h1 : 1 ≤ P := le_of_lt one_lt_P
  rw [Nat.cast_sub h1, ZMod.natCast_self, Nat.cast_one, zero_sub]

theorem sqrtF_correct (a : Nat) (ha : a < P) (hq : IsSquare ((a : Nat) : ZMod P)) :
    ((sqrtF a : Nat) : ZMod P) ^ 2 = ((a : Nat) : ZMod P) := by
  by_cases h0 : a % P = 0
  · have ha0 : a = 0 := by
      rwa [Nat.mod_eq_of_lt ha] at h0
    rw [sqrtF_of_zero a h0, ha0]
    norm_num
  · have hane : ((a : Nat) : ZMod P) ≠ 0 := by
      apply natCast_ne_zero_of_lt a _ ha
      rwa [Nat.mod_eq_of_lt ha] at h0
    have heuler : powMod a ((P - 1) / 2) P = 1 := (euler_nat a hane).mp hq
    have ht0 : ((powMod a tsOdd P : Nat) : ZMod P) ^ 2 ^ (192 - 1) = 1 := by
      rw [powMod_cast, ← pow_mul]
      have he : tsOdd * 2 ^ (192 - 1) = (P - 1) / 2 := tsOdd_mul
      rw [he]
      exact (zmod_pow_eq_one_iff a ((P - 1) / 2)).mpr heuler
    have hc0 : ((powMod 3 tsOdd P : Nat) : ZMod P) ^ 2 ^ (192 - 1) = -1 := by
      rw [powMod_cast, ← pow_mul]
      have he : tsOdd * 2 ^ (192 - 1) = (P - 1) / 2 := tsOdd_mul
      rw [he, ← powMod_cast, three_pow_div_two]
      exact natCast_P_sub_one
    have hr0 : ((powMod a ((tsOdd + 1) / 2) P : Nat) : ZMod P) ^ 2 =
        ((a : Nat) : ZMod P) * ((powMod a tsOdd P : Nat) : ZMod P) := by
      rw [powMod_cast, powMod_cast, ← pow_mul, tsOdd_half, pow_succ]
      ring
    have hmain := tsLoop_correct ((a : Nat) : ZMod P) 193 192
      (powMod 3 tsOdd P) (powMod a tsOdd P) (powMod a ((tsOdd + 1) / 2) P)
      (by norm_num) (by norm_num) ht0 hc0 hr0
    have hlt : tsLoop 193 192 (powMod 3 tsOdd P) (powMod a tsOdd P)
        (powMod a ((tsOdd + 1) / 2) P) < P :=
      tsLoop_lt 193 192 _ _ _ (powMod_lt a ((tsOdd + 1) / 2) P P_pos)
    rw [sqrtF_of_ne a h0]
    rcases le_total (tsLoop 193 192 (powMod 3 tsOdd P) (powMod a tsOdd P)
        (powMod a ((tsOdd + 1) / 2) P))
        (P - tsLoop 193 192 (powMod 3 tsOdd P) (powMod a tsOdd P)
          (powMod a ((tsOdd + 1) / 2) P)) with hmin | hmin
    · rw [min_eq_left hmin]
      exact hmain
    · rw [min_eq_right hmin, Nat.cast_sub (le_of_lt hlt), ZMod.natCast_self, zero_sub, neg_sq]
      exact hmain

/-! ### The cubic `x³ + x + BETA` has no root modulo `P`

Since the Stark curve has no 2-torsion, `x³ + ALPHA·x + BETA` has no linear
factor over `ZMod P`.  This is certified by computing `X^P` modulo the cubic:
any root `x` would satisfy `x^P = x`, hence be a root of the degree-2
remainder minus `X`, whose discriminant is a quadratic nonresidue. -/

/-- Computes `(a - b) mod P` on naturals. -/
def subP (a b : Nat) : Nat := (a + (P - b % P)) % P

/-- Multiplication of quadratic polynomials (coefficient triples, constant
first) modulo the cubic `X³ + X + BETA` and modulo `P`. -/
def mulRed (u v : Nat × Nat × Nat) : Nat × Nat × Nat :=
  match u, v with
  | (u0, u1, u2), (v0, v1, v2) =>
    let d0 := u0 * v0
    let d1 := u0 * v1 + u1 * v0
    let d2 := u0 * v2 + u1 * v1 + u2 * v0
    let d3 := u1 * v2 + u2 * v1
    let d4 := u2 * v2
    (subP d0 (BETA * d3), subP d1 (d3 + BETA * d4), subP d2 d4)

/-- Fuel-driven binary exponentiation in the quotient ring. -/
def polyPow : Nat → Nat × Nat × Nat → Nat → Nat × Nat × Nat
  | 0, _, _ => (1, 0, 0)
  | fuel + 1, b, n =>
    if n = 0 then (1, 0, 0)
    else
      let r := polyPow fuel (mulRed b b) (n / 2)
      if n % 2 = 1 then mulRed r b else r

/-- The polynomial `X^P` reduced modulo the cubic and `P`. -/
def xPowP : Nat × Nat × Nat := polyPow 253 (0, 1, 0) P

/-- The three coefficients of `X^P mod (X³ + X + BETA)`, precomputed. -/
def r0C : Nat := 1239449078601206323839931477754252857926825722420957394882125825580767950834

/-- Linear coefficient of the certificate. -/
def r1C : Nat := 1027665304376771424321882008953458101139376486246175016362676777958878998096

/-- Quadratic coefficient of the certificate. -/
def r2C : Nat := 1859173617901809485759897216631379286890238583631436092323188738371151926251

/-- Discriminant of `r2C·X² + (r1C − 1)·X + r0C` modulo `P`. -/
def discC : Nat := 1621950013593218285433918974466437411663785045717955380310751761794375513023

set_option maxRecDepth 40000 in
theorem xPowP_val : xPowP = (r0C, r1C, r2C) := by decide

set_option maxRecDepth 40000 in
theorem discC_nonresidue : powMod discC ((P - 1) / 2) P = P - 1 := by decide

theorem natCast_subP (a b : Nat) :
    ((subP a b : Nat) : ZMod P) = ((a : Nat) : ZMod P) - ((b : Nat) : ZMod P) := by
  rw [subP, ZMod.natCast_mod, Nat.cast_add,
    Nat.cast_sub (le_of_lt (Nat.mod_lt b P_pos)), ZMod.natCast_self, ZMod.natCast_mod]
  ring

/-- Evaluation of a coefficient triple at a point of `ZMod P`. -/
def evalP2 (x : ZMod P) (u : Nat × Nat × Nat) : ZMod P :=
  ((u.1 : Nat) : ZMod P) + ((u.2.1 : Nat) : ZMod P) * x + ((u.2.2 : Nat) : ZMod P) * x ^ 2

theorem evalP2_mulRed (x : ZMod P) (hx : x ^ 3 + x + ((BETA : Nat) : ZMod P) = 0)
    (u v : Nat × Nat × Nat) : evalP2 x (mulRed u v) = evalP2 x u * evalP2 x v := by
  obtain ⟨u0, u1, u2⟩ := u
  obtain ⟨v0, v1, v2⟩ := v
  simp only [evalP2, mulRed, natCast_subP]
  push_cast
  linear_combination (-((u1 : ZMod P) * (v2 : ZMod P) + (u2 : ZMod P) * (v1 : ZMod P)) -
    ((u2 : ZMod P) * (v2 : ZMod P)) * x) * hx

theorem evalP2_polyPow (x : ZMod P) (hx : x ^ 3 + x + ((BETA : Nat) : ZMod P) = 0) :
    ∀ fuel b n, n < 2 ^ fuel → evalP2 x (polyPow fuel b n) = evalP2 x b ^ n := by
  intro fuel
  induction fuel with
  | zero =>
    intro b n hn
    interval_cases n
    simp [polyPow, evalP2]
  | succ f ih =>
    intro b n hn
    by_cases h0 : n = 0
    · simp [polyPow, h0, evalP2]
    · have hdiv : n / 2 < 2 ^ f := by
        rw [Nat.div_lt_iff_lt_mul (by norm_num : (0:ℕ) < 2)]
        calc n < 2 ^ (f + 1) := hn
          _ = 2 ^ f * 2 := by rw [Nat.pow_succ]
      have hrec := ih (mulRed b b) (n / 2) hdiv
      have hsq : evalP2 x (mulRed b b) = evalP2 x b ^ 2 := by
        rw [evalP2_mulRed x hx, pow_two]
      rcases Nat.mod_two_eq_zero_or_one n with hpar | hpar
      · have hn2 : 2 * (n / 2) = n := by omega
        simp only [polyPow, h0, if_false, hpar]
        norm_num
        rw [hrec, hsq, ← pow_mul, hn2]
      · have hn2 : 2 * (n / 2) + 1 = n := by omega
        simp only [polyPow, h0, if_false, hpar, if_true]
        rw [evalP2_mulRed x hx, hrec, hsq, ← pow_mul, ← pow_succ, hn2]

theorem r1C_cast : ((r1C - 1 : Nat) : ZMod P) = ((r1C : Nat) : ZMod P) - 1 := by
  rw [Nat.cast_sub]
  · rw [Nat.cast_one]
  · norm_num [r1C]

theorem discC_cast :
    ((discC : Nat) : ZMod P) =
      (((r1C : Nat) : ZMod P) - 1) ^ 2 - 4 * ((r2C : Nat) : ZMod P) * ((r0C : Nat) : ZMod P) := by
  have hnat : (r1C - 1) ^ 2 % P = (discC + 4 * r2C * r0C) % P := by decide
  have hcast : (((r1C - 1) ^ 2 % P : Nat) : ZMod P) =
      (((discC + 4 * r2C * r0C) % P : Nat) : ZMod P) := by rw [hnat]
  rw [ZMod.natCast_mod, ZMod.natCast_mod] at hcast
  push_cast at hcast
  rw [r1C_cast] at hcast
  linear_combination -hcast

theorem cubic_no_root (x : ZMod P) : x ^ 3 + x + ((BETA : Nat) : ZMod P) ≠ 0 := by
  intro hx
  have hpow := evalP2_polyPow x hx 253 (0, 1, 0) P (by norm_num [P])
  have hxp : evalP2 x xPowP = x := by
    rw [xPowP, hpow]
    have hbase : evalP2 x (0, 1, 0) = x := by
      simp [evalP2]
    rw [hbase, ZMod.pow_card]
  rw [xPowP_val] at hxp
  have hquad : ((r2C : Nat) : ZMod P) * x ^ 2 + (((r1C : Nat) : ZMod P) - 1) * x +
      ((r0C : Nat) : ZMod P) = 0 := by
    simp only [evalP2] at hxp
    linear_combination hxp
  have hsquare : IsSquare ((discC : Nat) : ZMod P) := by
    refine ⟨2 * ((r2C : Nat) : ZMod P) * x + (((r1C : Nat) : ZMod P) - 1), ?_⟩
    rw [discC_cast]
    linear_combination (-4 * ((r2C : Nat) : ZMod P)) * hquad
  have hne : ((discC : Nat) : ZMod P) ≠ 0 :=
    natCast_ne_zero_of_lt discC (by norm_num [discC]) (by norm_num [discC, P])
  have h1 := (euler_nat discC hne).mp hsquare
  rw [discC_nonresidue] at h1
  norm_num [P] at h1

/-! ### Characterization of `recover_y` -/

/-- The unreduced `y²` candidate computed by `recover_y`. -/
def ySquaredOf (x : Nat) : Nat := powMod x 3 P + ALPHA * x + BETA

/-- The reduced right-hand side `(x³ + ALPHA·x + BETA) mod P`. -/
def rhsOf (x : Nat) : Nat := ySquaredOf x % P

theorem recover_y_eq (x : Nat) :
    recover_y x = if is_quad_residue (ySquaredOf x) then some (sqrtF (rhsOf x)) else none := rfl

theorem ySquaredOf_ge_two (x : Nat) : 2 ≤ ySquaredOf x :=
  calc 2 ≤ BETA := by norm_num [BETA]
    _ ≤ ySquaredOf x := Nat.le_add_left BETA _

theorem ySquaredOf_cast (x : Nat) :
    ((ySquaredOf x : Nat) : ZMod P) =
      ((x : Nat) : ZMod P) ^ 3 + ((x : Nat) : ZMod P) + ((BETA : Nat) : ZMod P) := by
  simp only [ySquaredOf, ALPHA]
  push_cast
  rw [powMod_cast]
  ring

theorem rhsOf_cast (x : Nat) :
    ((rhsOf x : Nat) : ZMod P) = ((ySquaredOf x : Nat) : ZMod P) := by
  rw [rhsOf, ZMod.natCast_mod]

theorem rhsOf_lt (x : Nat) : rhsOf x < P := Nat.mod_lt _ P_pos

theorem rhsOf_ne_zero (x : Nat) : ((rhsOf x : Nat) : ZMod P) ≠ 0 := by
  rw [rhsOf_cast, ySquaredOf_cast]
  exact cubic_no_root _

theorem powMod_mod (a n : Nat) : powMod (a % P) n P = powMod a n P := by
  rw [powMod_correct, powMod_correct, ← Nat.pow_mod]

theorem iqr_ySquared_iff (x : Nat) :
    is_quad_residue (ySquaredOf x) = true ↔ IsSquare ((rhsOf x : Nat) : ZMod P) := by
  have h2 := ySquaredOf_ge_two x
  have hfm : feltMax / 2 = (P - 1) / 2 := rfl
  rw [is_quad_residue, if_neg (by omega), beq_iff_eq, hfm,
    euler_nat (rhsOf x) (rhsOf_ne_zero x), rhsOf, powMod_mod]

theorem recover_y_eq_some (x y0 : Nat) :
    recover_y x = some y0 ↔
      IsSquare ((rhsOf x : Nat) : ZMod P) ∧ y0 = sqrtF (rhsOf x) := by
  rw [recover_y_eq]
  by_cases h : is_quad_residue (ySquaredOf x) = true
  · rw [if_pos h]
    simp only [Option.some_inj]
    constructor
    · intro hy
      exact ⟨(iqr_ySquared_iff x).mp h, hy.symm⟩
    · intro hy
      exact hy.2.symm
  · rw [if_neg h]
    constructor
    · intro hy
      cases hy
    · intro hy
      exact absurd ((iqr_ySquared_iff x).mpr hy.1) h

theorem recover_y_isSome_iff (x : Nat) :
    (recover_y x).isSome = true ↔ IsSquare ((rhsOf x : Nat) : ZMod P) := by
  constructor
  · intro h
    obtain ⟨y0, hy0⟩ := Option.isSome_iff_exists.mp h
    exact ((recover_y_eq_some x y0).mp hy0).1
  · intro h
    rw [(recover_y_eq_some x (sqrtF (rhsOf x))).mpr ⟨h, rfl⟩]
    rfl

theorem recover_y_sound (x y0 : Nat) (h : recover_y x = some y0) :
    y0 < P ∧ ((y0 : Nat) : ZMod P) ^ 2 = ((rhsOf x : Nat) : ZMod P) := by
  obtain ⟨hsq, hy0⟩ := (recover_y_eq_some x y0).mp h
  rw [hy0]
  exact ⟨sqrtF_lt (rhsOf x), sqrtF_correct (rhsOf x) (rhsOf_lt x) hsq⟩

/-! ### The sampling loop as a first-hit search -/

/-- The Boolean predicate "iteration `i` yields a point". -/
def hitAt (seed : List Nat) (i : Nat) : Bool := (tryIter seed i).isSome

theorem loopGo_eq_find (seed : List Nat) : ∀ fuel i0,
    loopGo seed fuel i0 =
      match (List.range' i0 fuel).find? (hitAt seed) with
      | some i => Except.ok ((tryIter seed i).getD (0, 0))
      | none => Except.error HintError.RandomEcPointNotOnCurve := by
  intro fuel
  induction fuel with
  | zero =>
    intro i0
    rfl
  | succ f ih =>
    intro i0
    rw [List.range'_succ]
    cases htry : tryIter seed i0 with
    | some pt =>
      have hpos : hitAt seed i0 = true := by
        simp [hitAt, htry]
      rw [List.find?_cons_of_pos _ hpos, loopGo_succ, htry, loopStep_some]
      show Except.ok pt = Except.ok ((tryIter seed i0).getD (0, 0))
      rw [htry, Option.getD_some]
    | none =>
      have hneg : ¬hitAt seed i0 = true := by
        simp [hitAt, htry]
      rw [List.find?_cons_of_neg _ hneg, loopGo_succ, htry, loopStep_none]
      exact ih (i0 + 1)

theorem randomEcPointDigest_find (seed : List Nat) :
    randomEcPointDigest seed =
      match (List.range 100).find? (hitAt seed) with
      | some i => Except.ok ((tryIter seed i).getD (0, 0))
      | none => Except.error HintError.RandomEcPointNotOnCurve := by
  rw [randomEcPointDigest, loopGo_eq_find, List.range_eq_range']

theorem randomEcPointDigest_ok (seed : List Nat) (x y : Nat)
    (h : randomEcPointDigest seed = .ok (x, y)) :
    ∃ i, (List.range 100).find? (hitAt seed) = some i ∧
      tryIter seed i = some (x, y) := by
  rw [randomEcPointDigest_find] at h
  cases hf : (List.range 100).find? (hitAt seed) with
  | none =>
    rw [hf] at h
    cases h
  | some i =>
    rw [hf] at h
    have hred : Except.ok ((tryIter seed i).getD (0, 0)) = Except.ok (x, y) := h
    have hp : hitAt seed i = true := List.find?_some hf
    rw [hitAt] at hp
    obtain ⟨pt, hpt⟩ := Option.isSome_iff_exists.mp hp
    refine ⟨i, rfl, ?_⟩
    rw [hpt] at hred ⊢
    simp only [Option.getD_some] at hred
    rw [Except.ok.injEq] at hred
    rw [hred]

/-! ### Byte serialization lemmas -/

theorem beBytesToNat_append_singleton (l : List Nat) (b : Nat) :
    beBytesToNat (l ++ [b]) = beBytesToNat l * 256 + b := by
  rw [beBytesToNat, beBytesToNat, List.foldl_append]
  rfl

theorem toBytesBeAux_succ (f n : Nat) :
    toBytesBeAux (f + 1) n = if n = 0 then [] else toBytesBeAux f (n / 256) ++ [n % 256] := rfl

theorem toBytesBeAux_spec : ∀ fuel n, n < 256 ^ fuel →
    beBytesToNat (toBytesBeAux fuel n) = n ∧ (toBytesBeAux fuel n).length ≤ fuel ∧
      ∀ b ∈ toBytesBeAux fuel n, b < 256 := by
  intro fuel
  induction fuel with
  | zero =>
    intro n hn
    interval_cases n
    refine ⟨rfl, by simp [toBytesBeAux], ?_⟩
    intro b hb
    simp [toBytesBeAux] at hb
  | succ f ih =>
    intro n hn
    by_cases h0 : n = 0
    · subst h0
      refine ⟨rfl, by simp [toBytesBeAux], ?_⟩
      intro b hb
      simp [toBytesBeAux] at hb
    · have hdiv : n / 256 < 256 ^ f := by
        rw [Nat.div_lt_iff_lt_mul (by norm_num : (0:ℕ) < 256)]
        calc n < 256 ^ (f + 1) := hn
          _ = 256 ^ f * 256 := by rw [Nat.pow_succ]
      obtain ⟨h1, h2, h3⟩ := ih (n / 256) hdiv
      rw [toBytesBeAux_succ, if_neg h0]
      refine ⟨?_, ?_, ?_⟩
      · rw [beBytesToNat_append_singleton, h1]
        omega
      · rw [List.length_append]
        simp only [List.length_singleton]
        omega
      · intro b hb
        rcases List.mem_append.mp hb with hb | hb
        · exact h3 b hb
        · rw [List.mem_singleton] at hb
          rw [hb]
          exact Nat.mod_lt n (by norm_num)

theorem feltToBytesBe_spec (n : Nat) (hn : n < 2 ^ 256) :
    beBytesToNat (feltToBytesBe n) = n ∧ (feltToBytesBe n).length ≤ 32 ∧
      ∀ b ∈ feltToBytesBe n, b < 256 := by
  by_cases h0 : n = 0
  · subst h0
    refine ⟨rfl, by simp [feltToBytesBe], ?_⟩
    intro b hb
    simp [feltToBytesBe] at hb
    omega
  · have hn' : n < 256 ^ 32 := by
      calc n < 2 ^ 256 := hn
        _ = 256 ^ 32 := by norm_num
    obtain ⟨h1, h2, h3⟩ := toBytesBeAux_spec 32 n hn'
    rw [feltToBytesBe, if_neg h0]
    exact ⟨h1, h2, h3⟩

theorem beBytesToNat_replicate_zero (k : Nat) (l : List Nat) :
    beBytesToNat (List.replicate k 0 ++ l) = beBytesToNat l := by
  induction k with
  | zero => rw [List.replicate_zero, List.nil_append]
  | succ k ih =>
    rw [List.replicate_succ, List.cons_append]
    have hstep : beBytesToNat ((0 : Nat) :: (List.replicate k 0 ++ l)) =
        beBytesToNat (List.replicate k 0 ++ l) := rfl
    rw [hstep, ih]

/-! ### Memory lemmas -/

theorem memGet_cons_self (mem : Memory) (a : Nat) (v : MemVal) :
    memGet ((a, v) :: mem) a = some v := by
  rw [memGet, List.find?_cons_of_pos]
  · rfl
  · simp

theorem memGet_cons_ne (mem : Memory) (a b : Nat) (v : MemVal) (h : b ≠ a) :
    memGet ((a, v) :: mem) b = memGet mem b := by
  rw [memGet, List.find?_cons_of_neg, memGet]
  simp
  omega

theorem memInsertAux_ok (mem mem' : Memory) (a : Nat) (v : MemVal) :
    ∀ res, memInsertAux mem a v res = .ok mem' → res = memGet mem a →
      memGet mem' a = some v ∧ ∀ b, b ≠ a → memGet mem' b = memGet mem b := by
  intro res hok hres
  cases res with
  | none =>
    have hmem' : mem' = (a, v) :: mem := by
      have : Except.ok ((a, v) :: mem) = (Except.ok mem' : Except HintError Memory) := hok
      cases this
      rfl
    subst hmem'
    refine ⟨memGet_cons_self mem a v, ?_⟩
    intro b hb
    exact memGet_cons_ne mem a b v hb
  | some w =>
    by_cases hw : w = v
    · have hmem' : mem' = mem := by
        rw [memInsertAux, if_pos hw] at hok
        cases hok
        rfl
      subst hmem'
      refine ⟨?_, fun b _ => rfl⟩
      rw [← hres, hw]
    · rw [memInsertAux, if_neg hw] at hok
      cases hok

theorem memInsert_ok (mem mem' : Memory) (a : Nat) (v : MemVal)
    (h : memInsert mem a v = .ok mem') :
    memGet mem' a = some v ∧ ∀ b, b ≠ a → memGet mem' b = memGet mem b :=
  memInsertAux_ok mem mem' a v (memGet mem a) h rfl

/-- Decidable equality for `Except`, needed to evaluate the model on concrete
inputs. -/
instance exceptDecEq {ε α : Type} [DecidableEq ε] [DecidableEq α] :
    DecidableEq (Except ε α)
  | .ok a, .ok b =>
    if h : a = b then .isTrue (by rw [h]) else
      .isFalse (by intro hc; cases hc; exact h rfl)
  | .error a, .error b =>
    if h : a = b then .isTrue (by rw [h]) else
      .isFalse (by intro hc; cases hc; exact h rfl)
  | .ok _, .error _ => .isFalse (by intro hc; cases hc)
  | .error _, .ok _ => .isFalse (by intro hc; cases hc)

/-! ### Sign-bit machinery for C6 -/

/-- Flip the sign bit (bit 0 of the first byte) of a seed digest. -/
def flipSign : List Nat → List Nat
  | [] => []
  | h :: t => (h ^^^ 1) :: t

/-- First-hit dispatch. -/
def firstY0Aux (seed : List Nat) : Option Nat → Option Nat
  | some i => recover_y (xCand seed i)
  | none => none

/-- The first residue root `y₀` produced by the sampling loop, when any. -/
def firstY0 (seed : List Nat) : Option Nat :=
  firstY0Aux seed ((List.range 100).find? (hitAt seed))

theorem tryAux_isSome (sign xv : Nat) (res : Option Nat) :
    (tryAux sign xv res).isSome = res.isSome := by
  cases res with
  | some y => rfl
  | none => rfl

theorem find?_congr {α : Type} (p q : α → Bool) (h : ∀ a, p a = q a) :
    ∀ l : List α, l.find? p = l.find? q := by
  intro l
  induction l with
  | nil => rfl
  | cons a t ih =>
    cases hpa : p a with
    | true =>
      rw [List.find?_cons_of_pos _ hpa, List.find?_cons_of_pos]
      rw [← h a]
      exact hpa
    | false =>
      rw [List.find?_cons_of_neg _ (by rw [hpa]; simp), List.find?_cons_of_neg, ih]
      rw [← h a, hpa]
      simp

theorem signBit_lt_two (seed : List Nat) : signBit seed < 2 := by
  rw [signBit, Nat.and_one_is_mod]
  exact Nat.mod_lt _ (by norm_num)

theorem flipSign_tail (h0 : Nat) (t : List Nat) :
    (flipSign (h0 :: t)).drop 1 = (h0 :: t).drop 1 := rfl

theorem xCand_flip (h0 : Nat) (t : List Nat) (i : Nat) :
    xCand (flipSign (h0 :: t)) i = xCand (h0 :: t) i := rfl

theorem recover_y_xCand_flip (h0 : Nat) (t : List Nat) (i : Nat) :
    recover_y (xCand (flipSign (h0 :: t)) i) = recover_y (xCand (h0 :: t) i) := rfl

theorem signBit_flip (h0 : Nat) (t : List Nat) :
    signBit (flipSign (h0 :: t)) = 1 - signBit (h0 :: t) := by
  have h1 : signBit (flipSign (h0 :: t)) = (h0 ^^^ 1) % 2 := by
    rw [flipSign, signBit]
    rw [Nat.and_one_is_mod]
    rfl
  have h2 : signBit (h0 :: t) = h0 % 2 := by
    rw [signBit]
    rw [Nat.and_one_is_mod]
    rfl
  rw [h1, h2, Nat.xor_mod_two_eq]
  omega

theorem hitAt_flip (h0 : Nat) (t : List Nat) (i : Nat) :
    hitAt (flipSign (h0 :: t)) i = hitAt (h0 :: t) i := by
  rw [hitAt, hitAt, tryIter_unfold, tryIter_unfold, tryAux_isSome, tryAux_isSome,
    recover_y_xCand_flip]

/-- Everything C1 needs about a successful iteration. -/
theorem tryIter_ok (seed : List Nat) (i x y : Nat) (h : tryIter seed i = some (x, y)) :
    x < P ∧ y < P ∧
      ((y : Nat) : ZMod P) ^ 2 =
        ((x : Nat) : ZMod P) ^ 3 + ((x : Nat) : ZMod P) + ((BETA : Nat) : ZMod P) ∧
      y ≠ 0 := by
  rw [tryIter_unfold] at h
  cases hr : recover_y (xCand seed i) with
  | none =>
    rw [hr, tryAux_none] at h
    cases h
  | some y0 =>
    rw [hr, tryAux_some] at h
    simp only [Option.some_inj, Prod.mk.injEq] at h
    obtain ⟨hx, hy⟩ := h
    obtain ⟨hy0lt, hy0sq⟩ := recover_y_sound (xCand seed i) y0 hr
    have hxcast : ((x : Nat) : ZMod P) = ((xCand seed i : Nat) : ZMod P) := by
      rw [← hx, ZMod.natCast_mod]
    have hycast : ((y : Nat) : ZMod P) = ((y0 : Nat) : ZMod P) ∨
        ((y : Nat) : ZMod P) = -((y0 : Nat) : ZMod P) := by
      rw [← hy, applySign]
      by_cases hs : signBit seed = 0
      · rw [if_pos hs, ZMod.natCast_mod]
        exact Or.inl rfl
      · rw [if_neg hs, ZMod.natCast_mod,
          Nat.cast_sub (le_of_lt (Nat.mod_lt y0 P_pos)), ZMod.natCast_self,
          ZMod.natCast_mod, zero_sub]
        exact Or.inr rfl
    have hysq : ((y : Nat) : ZMod P) ^ 2 = ((y0 : Nat) : ZMod P) ^ 2 := by
      rcases hycast with hc | hc
      · rw [hc]
      · rw [hc, neg_sq]
    have hcurve : ((y : Nat) : ZMod P) ^ 2 =
        ((x : Nat) : ZMod P) ^ 3 + ((x : Nat) : ZMod P) + ((BETA : Nat) : ZMod P) := by
      rw [hysq, hy0sq, rhsOf_cast, ySquaredOf_cast, hxcast]
    refine ⟨?_, ?_, hcurve, ?_⟩
    · rw [← hx]
      exact Nat.mod_lt _ P_pos
    · rw [← hy, applySign]
      by_cases hs : signBit seed = 0
      · rw [if_pos hs]
        exact Nat.lt_of_lt_of_le (Nat.mod_lt y0 P_pos) (le_refl P)
      · rw [if_neg hs]
        exact Nat.mod_lt _ P_pos
    · intro hy0'
      apply rhsOf_ne_zero (xCand seed i)
      rw [← hy0sq, ← hysq, hy0', Nat.cast_zero]
      norm_num

/-! ### Claim theorems -/

/-- C3: for every `a` in `[0, P)`, `is_quad_residue a` is true iff `a = 0` or
`a^((P−1)/2) mod P = 1`, which is equivalent to the existence of `b` in
`[0, P)` with `b² ≡ a (mod P)`; the code's exponent `Felt::max_value() / 2`
equals `(P − 1) / 2`. -/
theorem claim_C3 (a : Nat) (ha : a < P) :
    (is_quad_residue a = true ↔ (a = 0 ∨ a ^ ((P - 1) / 2) % P = 1)) ∧
    (is_quad_residue a = true ↔ isQRNat a) ∧
    feltMax / 2 = (P - 1) / 2 := by
  have hfm : feltMax / 2 = (P - 1) / 2 := rfl
  have hpow : is_quad_residue a = true ↔ (a = 0 ∨ a ^ ((P - 1) / 2) % P = 1) := by
    by_cases h2 : a < 2
    · rw [is_quad_residue, if_pos h2]
      constructor
      · intro _
        have ha01 : a = 0 ∨ a = 1 := by omega
        rcases ha01 with rfl | rfl
        · exact Or.inl rfl
        · exact Or.inr (Eq.trans
            (congrArg (fun x => x % P) (Nat.one_pow ((P - 1) / 2)))
            (Nat.mod_eq_of_lt one_lt_P))
      · intro _
        rfl
    · rw [is_quad_residue, if_neg h2, beq_iff_eq, hfm, powMod_correct]
      rw [or_iff_right (by omega : ¬a = 0)]
  refine ⟨hpow, ?_, hfm⟩
  by_cases h0 : a = 0
  · subst h0
    constructor
    · intro _
      exact ⟨0, P_pos, by simp⟩
    · intro _
      rfl
  · have hane : ((a : Nat) : ZMod P) ≠ 0 := natCast_ne_zero_of_lt a h0 ha
    rw [hpow, isQRNat_iff_isSquare, euler_nat a hane, powMod_correct]
    rw [or_iff_right h0]

/-- Witness for C3 at `a = 4`. -/
theorem claim_C3_witness :
    4 < P ∧
      ((is_quad_residue 4 = true ↔ (4 = 0 ∨ 4 ^ ((P - 1) / 2) % P = 1)) ∧
       (is_quad_residue 4 = true ↔ isQRNat 4) ∧
       feltMax / 2 = (P - 1) / 2) :=
  ⟨by norm_num [P], claim_C3 4 (by norm_num [P])⟩

/-- C4: for every 256-bit candidate `x`, the iteration yields a point iff the
reduced `rhs = (x³ + ALPHA·x + BETA) mod P` is a quadratic residue, and a
yielded `y₀` is a representative in `[0, P)` with `y₀² ≡ rhs (mod P)`. -/
theorem claim_C4 (x : Nat) :
    ((recover_y x).isSome = true ↔ isQRNat (rhsOf x)) ∧
    rhsOf x = (x ^ 3 + ALPHA * x + BETA) % P ∧
    ∀ y0, recover_y x = some y0 → y0 < P ∧ y0 * y0 % P = rhsOf x := by
  refine ⟨?_, ?_, ?_⟩
  · rw [recover_y_isSome_iff, isQRNat_iff_isSquare]
  · rw [rhsOf, ySquaredOf, powMod_correct, Nat.add_assoc, Nat.mod_add_mod, ← Nat.add_assoc]
  · intro y0 hy0
    obtain ⟨hlt, hsq⟩ := recover_y_sound x y0 hy0
    refine ⟨hlt, ?_⟩
    have hval : ((((y0 : Nat) : ZMod P)) ^ 2).val = (((rhsOf x : Nat) : ZMod P)).val := by
      rw [hsq]
    rw [pow_two, ZMod.val_mul, ZMod.val_cast_of_lt hlt, ZMod.val_natCast] at hval
    rw [hval, Nat.mod_eq_of_lt (rhsOf_lt x)]

/-- Witness for C4 at `x = 0` (the `∀ y0` component is a hypothesis-bearing
conjunct; the theorem is applied at the concrete candidate `0`). -/
theorem claim_C4_witness :
    ((recover_y 0).isSome = true ↔ isQRNat (rhsOf 0)) ∧
    rhsOf 0 = (0 ^ 3 + ALPHA * 0 + BETA) % P ∧
    ∀ y0, recover_y 0 = some y0 → y0 < P ∧ y0 * y0 % P = rhsOf 0 :=
  claim_C4 0

/-- C5: for every iteration index `i < 100` and 32-byte seed digest, the block
fed to the inner SHA-256 is exactly the 31-byte tail, then the byte `i`, then
9 zero bytes — 41 bytes in that order. -/
theorem claim_C5 (seed : List Nat) (i : Nat) (hlen : seed.length = 32) (hi : i < 100) :
    blockFor seed i = seed.drop 1 ++ [i] ++ List.replicate 9 0 ∧
    (blockFor seed i).length = 41 ∧
    xCand seed i = beBytesToNat (sha256 (blockFor seed i)) := by
  have hb : blockFor seed i = seed.drop 1 ++ [i] ++ List.replicate 9 0 := by
    rw [blockFor, Nat.mod_eq_of_lt (by omega : i < 256)]
  refine ⟨hb, ?_, rfl⟩
  rw [hb]
  simp only [List.length_append, List.length_drop, List.length_replicate,
    List.length_singleton, hlen]

/-- Witness for C5 at the all-zero digest and `i = 0`. -/
theorem claim_C5_witness :
    (List.replicate 32 0).length = 32 ∧ 0 < 100 ∧
      (blockFor (List.replicate 32 0) 0 =
          (List.replicate 32 0).drop 1 ++ [0] ++ List.replicate 9 0 ∧
        (blockFor (List.replicate 32 0) 0).length = 41 ∧
        xCand (List.replicate 32 0) 0 =
          beBytesToNat (sha256 (blockFor (List.replicate 32 0) 0))) :=
  ⟨by simp, by norm_num, claim_C5 (List.replicate 32 0) 0 (by simp) (by norm_num)⟩

/-- C7: `random_ec_point` returns `RandomEcPointNotOnCurve` exactly when no
iteration in `0..100` hits, and otherwise the point of the least hitting
index (`List.find?` over `range 100` returns the first hit); each iteration
hits iff its candidate passes the quadratic-residue test. -/
theorem claim_C7 (b : List Nat) :
    random_ec_point b =
      (match (List.range 100).find? (hitAt (sha256 b)) with
      | some i => Except.ok ((tryIter (sha256 b) i).getD (0, 0))
      | none => Except.error HintError.RandomEcPointNotOnCurve) ∧
    ∀ i, hitAt (sha256 b) i = is_quad_residue (ySquaredOf (xCand (sha256 b) i)) := by
  constructor
  · have hre : random_ec_point b = randomEcPointDigest (sha256 b) := rfl
    rw [hre, randomEcPointDigest_find]
  · intro i
    rw [hitAt, tryIter_unfold, tryAux_isSome, recover_y_eq]
    cases h : is_quad_residue (ySquaredOf (xCand (sha256 b) i)) with
    | true => rfl
    | false => rfl

/-- C8: `to_padded_bytes` is total on field elements: the minimal encoding has
length at most 32 (so the `32 - len` subtraction cannot underflow), and the
result is exactly the 32-byte big-endian encoding of `n`, left-padded with
zeros, decoding back to `n`. -/
theorem claim_C8 (n : Nat) (hn : n < P) :
    (feltToBytesBe n).length ≤ 32 ∧
    (to_padded_bytes n).length = 32 ∧
    to_padded_bytes n = List.replicate (32 - (feltToBytesBe n).length) 0 ++ feltToBytesBe n ∧
    beBytesToNat (to_padded_bytes n) = n ∧
    ∀ b ∈ to_padded_bytes n, b < 256 := by
  have hn' : n < 2 ^ 256 := lt_trans hn (by norm_num [P])
  obtain ⟨h1, h2, h3⟩ := feltToBytesBe_spec n hn'
  refine ⟨h2, ?_, rfl, ?_, ?_⟩
  · rw [to_padded_bytes, List.length_append, List.length_replicate]
    omega
  · rw [to_padded_bytes, beBytesToNat_replicate_zero, h1]
  · intro b hb
    rw [to_padded_bytes] at hb
    rcases List.mem_append.mp hb with hb | hb
    · rw [List.eq_of_mem_replicate hb]
      norm_num
    · exact h3 b hb

/-- Witness for C8 at `n = 5`. -/
theorem claim_C8_witness :
    5 < P ∧
      ((feltToBytesBe 5).length ≤ 32 ∧
        (to_padded_bytes 5).length = 32 ∧
        to_padded_bytes 5 =
          List.replicate (32 - (feltToBytesBe 5).length) 0 ++ feltToBytesBe 5 ∧
        beBytesToNat (to_padded_bytes 5) = 5 ∧
        ∀ b ∈ to_padded_bytes 5, b < 256) :=
  ⟨by norm_num [P], claim_C8 5 (by norm_num [P])⟩

/-- C9: the derivation is deterministic — equal five-tuples of field elements
produce equal results. -/
theorem claim_C9 (px py m qx qy px' py' m' qx' qy' : Nat)
    (_h1 : px < P) (_h2 : py < P) (_h3 : m < P) (_h4 : qx < P) (_h5 : qy < P)
    (_h6 : px' < P) (_h7 : py' < P) (_h8 : m' < P) (_h9 : qx' < P) (_h10 : qy' < P)
    (e1 : px = px') (e2 : py = py') (e3 : m = m') (e4 : qx = qx') (e5 : qy = qy') :
    random_ec_point (seedBytesOf px py m qx qy) =
      random_ec_point (seedBytesOf px' py' m' qx' qy') := by
  rw [e1, e2, e3, e4, e5]

/-- Witness for C9 at the zero tuple. -/
theorem claim_C9_witness :
    (0 : Nat) < P ∧
      random_ec_point (seedBytesOf 0 0 0 0 0) = random_ec_point (seedBytesOf 0 0 0 0 0) :=
  ⟨P_pos, claim_C9 0 0 0 0 0 0 0 0 0 0 P_pos P_pos P_pos P_pos P_pos
    P_pos P_pos P_pos P_pos P_pos rfl rfl rfl rfl rfl⟩

/-- C10: in `EcPoint::from_var_name`, a failure to read either coordinate cell
as an integer produces `IdentifierHasNoMember(name, "x")` — the member
component is `"x"` even when the `y` cell (base + 1) is the one that failed. -/
theorem claim_C10 (ids : Ids) (mem : Memory) (name : String) (a : Nat)
    (hres : getRelocatable ids name = .ok a) :
    (getInteger mem a = none →
      ecPointFromVarName ids mem name = .error (.IdentifierHasNoMember name "x")) ∧
    ∀ xv, getInteger mem a = some xv → getInteger mem (a + 1) = none →
      ecPointFromVarName ids mem name = .error (.IdentifierHasNoMember name "x") := by
  have hunfold : ecPointFromVarName ids mem name =
      ecPointAux mem name (getRelocatable ids name) := rfl
  have h2 : ecPointAux mem name (.ok a) =
      ecPointAux2 name (getInteger mem a) (getInteger mem (a + 1)) := rfl
  constructor
  · intro hx
    rw [hunfold, hres, h2, hx]
    rfl
  · intro xv hx hy
    rw [hunfold, hres, h2, hx, hy]
    rfl

/-- Witness for C10: the `y` cell at address 1 is unreadable while the `x`
cell reads fine, and the error still names member `"x"`. -/
theorem claim_C10_witness :
    getRelocatable [("pt", 0)] "pt" = Except.ok 0 ∧
      ((getInteger [(0, MemVal.int 7)] 0 = none →
        ecPointFromVarName [("pt", 0)] [(0, MemVal.int 7)] "pt" =
          .error (.IdentifierHasNoMember "pt" "x")) ∧
      ∀ xv, getInteger [(0, MemVal.int 7)] 0 = some xv →
        getInteger [(0, MemVal.int 7)] (0 + 1) = none →
        ecPointFromVarName [("pt", 0)] [(0, MemVal.int 7)] "pt" =
          .error (.IdentifierHasNoMember "pt" "x")) :=
  ⟨by decide, claim_C10 [("pt", 0)] [(0, MemVal.int 7)] "pt" 0 (by decide)⟩

/-- C1: for every 160-byte seed on which `random_ec_point` succeeds with
output `(x, y)`, the curve equation `y² ≡ x³ + α·x + β (mod p)` holds with
the fixed constants, and the output is never `(0, 0)` (indeed `y ≠ 0`). -/
theorem claim_C1 (seedBytes : List Nat) (_hlen : seedBytes.length = 160) :
    (ALPHA = 1 ∧
     BETA = 3141592653589793238462643383279502884197169399375105820974944592307816406665 ∧
     P = 2 ^ 251 + 17 * 2 ^ 192 + 1) ∧
    match random_ec_point seedBytes with
    | .ok (x, y) =>
        y * y % P = (x ^ 3 + ALPHA * x + BETA) % P ∧ x < P ∧ y < P ∧ ¬(x = 0 ∧ y = 0)
    | .error _ => True := by
  refine ⟨⟨rfl, rfl, rfl⟩, ?_⟩
  cases hres : random_ec_point seedBytes with
  | error e => trivial
  | ok pt =>
    obtain ⟨x, y⟩ := pt
    have hres' : randomEcPointDigest (sha256 seedBytes) = .ok (x, y) := hres
    obtain ⟨i, hfind, htry⟩ := randomEcPointDigest_ok (sha256 seedBytes) x y hres'
    obtain ⟨hx, hy, hcurve, hyne⟩ := tryIter_ok (sha256 seedBytes) i x y htry
    refine ⟨?_, hx, hy, ?_⟩
    · have hcast : ((y * y : Nat) : ZMod P) = ((x ^ 3 + ALPHA * x + BETA : Nat) : ZMod P) := by
        have hA : ALPHA = 1 := rfl
        rw [hA]
        push_cast
        linear_combination hcurve
      have hmod := (ZMod.natCast_eq_natCast_iff (y * y) (x ^ 3 + ALPHA * x + BETA) P).mp hcast
      exact hmod
    · rintro ⟨hx0, hy0⟩
      exact hyne hy0

/-- Witness for C1 at the all-zero 160-byte seed. -/
theorem claim_C1_witness :
    (List.replicate 160 0).length = 160 ∧
    ((ALPHA = 1 ∧
      BETA = 3141592653589793238462643383279502884197169399375105820974944592307816406665 ∧
      P = 2 ^ 251 + 17 * 2 ^ 192 + 1) ∧
     match random_ec_point (List.replicate 160 0) with
     | .ok (x, y) =>
         y * y % P = (x ^ 3 + ALPHA * x + BETA) % P ∧ x < P ∧ y < P ∧ ¬(x = 0 ∧ y = 0)
     | .error _ => True) :=
  ⟨by simp, claim_C1 (List.replicate 160 0) (by simp)⟩

/-- C6: on success, the returned `y` is the first residue root `y₀` when the
sign bit is 0 and `(P − y₀) mod P` when it is 1; `y` is reduced in `[0, P)`;
and flipping the sign bit of the seed digest flips `y` to `(P − y) mod P`
without changing `x`. -/
theorem claim_C6 (seed : List Nat) (x y : Nat) (hlen : seed.length = 32)
    (h : randomEcPointDigest seed = .ok (x, y)) :
    ∃ y0, firstY0 seed = some y0 ∧ y0 < P ∧
      (signBit seed = 0 → y = y0) ∧
      (signBit seed = 1 → y = (P - y0) % P) ∧
      y < P ∧
      randomEcPointDigest (flipSign seed) = .ok (x, (P - y) % P) := by
  obtain ⟨h0, t, rfl⟩ : ∃ h0 t, seed = h0 :: t := by
    cases seed with
    | nil => simp at hlen
    | cons h0 t => exact ⟨h0, t, rfl⟩
  obtain ⟨i, hfind, htry⟩ := randomEcPointDigest_ok _ x y h
  rw [tryIter_unfold] at htry
  cases hr : recover_y (xCand (h0 :: t) i) with
  | none =>
    rw [hr, tryAux_none] at htry
    cases htry
  | some y0 =>
    rw [hr, tryAux_some] at htry
    simp only [Option.some_inj, Prod.mk.injEq] at htry
    obtain ⟨hx, hy⟩ := htry
    obtain ⟨hy0lt, _⟩ := recover_y_sound _ y0 hr
    have hfy : firstY0 (h0 :: t) = some y0 := by
      rw [firstY0, hfind]
      have hstep : firstY0Aux (h0 :: t) (some i) = recover_y (xCand (h0 :: t) i) := rfl
      rw [hstep, hr]
    have hsign2 := signBit_lt_two (h0 :: t)
    refine ⟨y0, hfy, hy0lt, ?_, ?_, ?_, ?_⟩
    · intro hs0
      rw [← hy, applySign, if_pos hs0, Nat.mod_eq_of_lt hy0lt]
    · intro hs1
      rw [← hy, applySign, if_neg (by omega), Nat.mod_eq_of_lt hy0lt]
    · rw [← hy, applySign]
      by_cases hs : signBit (h0 :: t) = 0
      · rw [if_pos hs, Nat.mod_eq_of_lt hy0lt]
        exact hy0lt
      · rw [if_neg hs]
        exact Nat.mod_lt _ P_pos
    · have hfindflip : (List.range 100).find? (hitAt (flipSign (h0 :: t))) = some i := by
        rw [find?_congr (hitAt (flipSign (h0 :: t))) (hitAt (h0 :: t)) (hitAt_flip h0 t)]
        exact hfind
      rw [randomEcPointDigest_find, hfindflip]
      show Except.ok ((tryIter (flipSign (h0 :: t)) i).getD (0, 0)) = _
      rw [tryIter_unfold, recover_y_xCand_flip, hr, tryAux_some, Option.getD_some,
        xCand_flip, signBit_flip]
      rw [Except.ok.injEq, Prod.mk.injEq]
      refine ⟨hx, ?_⟩
      by_cases hs : signBit (h0 :: t) = 0
      · have hyv : y = y0 := by
          rw [← hy, applySign, if_pos hs, Nat.mod_eq_of_lt hy0lt]
        have hL : applySign (1 - signBit (h0 :: t)) y0 = (P - y0) % P := by
          rw [hs, applySign, if_neg (by norm_num), Nat.mod_eq_of_lt hy0lt]
        rw [hL, hyv]
      · have hs1 : signBit (h0 :: t) = 1 := by omega
        have hyv : y = (P - y0) % P := by
          rw [← hy, applySign, if_neg hs, Nat.mod_eq_of_lt hy0lt]
        have hL : applySign (1 - signBit (h0 :: t)) y0 = y0 := by
          rw [hs1, applySign, if_pos rfl, Nat.mod_eq_of_lt hy0lt]
        rw [hL, hyv]
        rcases Nat.eq_zero_or_pos y0 with hz | hz
        · rw [hz]
          simp
        · have hl1 : P - y0 < P := by omega
          rw [Nat.mod_eq_of_lt hl1]
          have hl2 : P - (P - y0) = y0 := by omega
          rw [hl2, Nat.mod_eq_of_lt hy0lt]

/-- A concrete 32-byte seed digest (the SHA-256 of 160 zero bytes). -/
def c6Seed : List Nat :=
  [0xb3, 0x93, 0x97, 0x88, 0x42, 0xa0, 0xfa, 0x3d, 0x3e, 0x14, 0x70, 0x19,
   0x6f, 0x09, 0x8f, 0x47, 0x3f, 0x96, 0x78, 0xe7, 0x24, 0x63, 0xcb, 0x65,
   0xec, 0x4a, 0xb5, 0x58, 0x18, 0x56, 0xc2, 0xe4]

/-- The x-coordinate derived from `c6Seed`. -/
def c6X : Nat := 2480822187915755705361311456038382415646830363656585234165421059092188232567

/-- The y-coordinate derived from `c6Seed` (sign bit 1). -/
def c6Y : Nat := 3426372215771188665481839212826984305934013501136336242260292636819990459228

set_option maxRecDepth 100000 in
/-- Witness for C6: the derivation on `c6Seed` succeeds, discharging the
hypotheses of the theorem at a concrete input. -/
theorem claim_C6_witness :
    c6Seed.length = 32 ∧
    randomEcPointDigest c6Seed = .ok (c6X, c6Y) ∧
    (∃ y0, firstY0 c6Seed = some y0 ∧ y0 < P ∧
      (signBit c6Seed = 0 → c6Y = y0) ∧
      (signBit c6Seed = 1 → c6Y = (P - y0) % P) ∧
      c6Y < P ∧
      randomEcPointDigest (flipSign c6Seed) = .ok (c6X, (P - c6Y) % P)) :=
  ⟨by decide, by decide, claim_C6 c6Seed c6X c6Y (by decide) (by decide)⟩

/-! ### C2: atomicity of the hint -/

theorem hint_unfold (ids : Ids) (mem : Memory) :
    random_ec_point_hint ids mem = hintP ids mem (ecPointFromVarName ids mem "p") := rfl

theorem hintP_err (ids : Ids) (mem : Memory) (e : HintError) :
    hintP ids mem (.error e) = (.error e, mem) := rfl

theorem hintP_ok (ids : Ids) (mem : Memory) (px py : Nat) :
    hintP ids mem (.ok (px, py)) = hintQ ids mem px py (ecPointFromVarName ids mem "q") := rfl

theorem hintQ_err (ids : Ids) (mem : Memory) (px py : Nat) (e : HintError) :
    hintQ ids mem px py (.error e) = (.error e, mem) := rfl

theorem hintQ_ok (ids : Ids) (mem : Memory) (px py qx qy : Nat) :
    hintQ ids mem px py (.ok (qx, qy)) =
      hintM ids mem px py qx qy (getIntegerFromVarName ids mem "m") := rfl

theorem hintM_err (ids : Ids) (mem : Memory) (px py qx qy : Nat) (e : HintError) :
    hintM ids mem px py qx qy (.error e) = (.error e, mem) := rfl

theorem hintM_ok (ids : Ids) (mem : Memory) (px py qx qy m : Nat) :
    hintM ids mem px py qx qy (.ok m) =
      hintPoint ids mem (random_ec_point (seedBytesOf px py m qx qy)) := rfl

theorem hintPoint_err (ids : Ids) (mem : Memory) (e : HintError) :
    hintPoint ids mem (.error e) = (.error e, mem) := rfl

theorem hintPoint_ok (ids : Ids) (mem : Memory) (x y : Nat) :
    hintPoint ids mem (.ok (x, y)) = hintS mem x y (getRelocatable ids "s") := rfl

theorem hintS_err (mem : Memory) (x y : Nat) (e : HintError) :
    hintS mem x y (.error e) = (.error e, mem) := rfl

theorem hintS_ok (mem : Memory) (x y sAddr : Nat) :
    hintS mem x y (.ok sAddr) = hintWrite1 mem sAddr y (memInsert mem sAddr (.int x)) := rfl

theorem hintWrite1_err (mem : Memory) (sAddr y : Nat) (e : HintError) :
    hintWrite1 mem sAddr y (.error e) = (.error e, mem) := rfl

theorem hintWrite1_ok (mem mem1 : Memory) (sAddr y : Nat) :
    hintWrite1 mem sAddr y (.ok mem1) =
      hintWrite2 mem1 (memInsert mem1 (sAddr + 1) (.int y)) := rfl

theorem hintWrite2_err (mem1 : Memory) (e : HintError) :
    hintWrite2 mem1 (.error e) = (.error e, mem1) := rfl

theorem hintWrite2_ok (mem1 mem2 : Memory) :
    hintWrite2 mem1 (.ok mem2) = (.ok (), mem2) := rfl

/-- Exhaustive case analysis of the hint's control flow. -/
theorem hint_cases (ids : Ids) (mem : Memory) :
    (∃ e, random_ec_point_hint ids mem = (.error e, mem)) ∨
    (∃ px py qx qy m x y sAddr mem1,
      ecPointFromVarName ids mem "p" = .ok (px, py) ∧
      ecPointFromVarName ids mem "q" = .ok (qx, qy) ∧
      getIntegerFromVarName ids mem "m" = .ok m ∧
      random_ec_point (seedBytesOf px py m qx qy) = .ok (x, y) ∧
      getRelocatable ids "s" = .ok sAddr ∧
      memInsert mem sAddr (.int x) = .ok mem1 ∧
      ((∃ e, memInsert mem1 (sAddr + 1) (.int y) = .error e ∧
          random_ec_point_hint ids mem = (.error e, mem1)) ∨
       (∃ mem2, memInsert mem1 (sAddr + 1) (.int y) = .ok mem2 ∧
          random_ec_point_hint ids mem = (.ok (), mem2)))) := by
  have h1 := hint_unfold ids mem
  cases hp : ecPointFromVarName ids mem "p" with
  | error e =>
    left
    exact ⟨e, by rw [h1, hp, hintP_err]⟩
  | ok pq =>
    obtain ⟨px, py⟩ := pq
    have h2 : random_ec_point_hint ids mem =
        hintQ ids mem px py (ecPointFromVarName ids mem "q") := by
      rw [h1, hp, hintP_ok]
    cases hq : ecPointFromVarName ids mem "q" with
    | error e =>
      left
      exact ⟨e, by rw [h2, hq, hintQ_err]⟩
    | ok qq =>
      obtain ⟨qx, qy⟩ := qq
      have h3 : random_ec_point_hint ids mem =
          hintM ids mem px py qx qy (getIntegerFromVarName ids mem "m") := by
        rw [h2, hq, hintQ_ok]
      cases hm : getIntegerFromVarName ids mem "m" with
      | error e =>
        left
        exact ⟨e, by rw [h3, hm, hintM_err]⟩
      | ok m =>
        have h4 : random_ec_point_hint ids mem =
            hintPoint ids mem (random_ec_point (seedBytesOf px py m qx qy)) := by
          rw [h3, hm, hintM_ok]
        cases hpt : random_ec_point (seedBytesOf px py m qx qy) with
        | error e =>
          left
          exact ⟨e, by rw [h4, hpt, hintPoint_err]⟩
        | ok xy =>
          obtain ⟨x, y⟩ := xy
          have h5 : random_ec_point_hint ids mem =
              hintS mem x y (getRelocatable ids "s") := by
            rw [h4, hpt, hintPoint_ok]
          cases hs : getRelocatable ids "s" with
          | error e =>
            left
            exact ⟨e, by rw [h5, hs, hintS_err]⟩
          | ok sAddr =>
            have h6 : random_ec_point_hint ids mem =
                hintWrite1 mem sAddr y (memInsert mem sAddr (.int x)) := by
              rw [h5, hs, hintS_ok]
            cases hw1 : memInsert mem sAddr (.int x) with
            | error e =>
              left
              exact ⟨e, by rw [h6, hw1, hintWrite1_err]⟩
            | ok mem1 =>
              have h7 : random_ec_point_hint ids mem =
                  hintWrite2 mem1 (memInsert mem1 (sAddr + 1) (.int y)) := by
                rw [h6, hw1, hintWrite1_ok]
              cases hw2 : memInsert mem1 (sAddr + 1) (.int y) with
              | error e =>
                right
                exact ⟨px, py, qx, qy, m, x, y, sAddr, mem1, rfl, rfl, rfl, hpt, rfl, hw1,
                  Or.inl ⟨e, hw2, by rw [h7, hw2, hintWrite2_err]⟩⟩
              | ok mem2 =>
                right
                exact ⟨px, py, qx, qy, m, x, y, sAddr, mem1, rfl, rfl, rfl, hpt, rfl, hw1,
                  Or.inr ⟨mem2, hw2, by rw [h7, hw2, hintWrite2_ok]⟩⟩

/-- C2 (amended): on success the hint has written exactly the two cells at the
base of `s` (the derived `x`, then `y` at the next cell) and nothing else; on
an error, the only cell that can have been written is the first output cell at
the base of `s` (this happens when the second write fails), and it then holds
the derived `x`. -/
theorem claim_C2_amended (ids : Ids) (mem : Memory) :
    ((random_ec_point_hint ids mem).1 = .ok () →
      ∃ sAddr x y,
        getRelocatable ids "s" = .ok sAddr ∧
        memGet (random_ec_point_hint ids mem).2 sAddr = some (.int x) ∧
        memGet (random_ec_point_hint ids mem).2 (sAddr + 1) = some (.int y) ∧
        (∃ px py m qx qy,
          ecPointFromVarName ids mem "p" = .ok (px, py) ∧
          ecPointFromVarName ids mem "q" = .ok (qx, qy) ∧
          getIntegerFromVarName ids mem "m" = .ok m ∧
          random_ec_point (seedBytesOf px py m qx qy) = .ok (x, y)) ∧
        ∀ a, a ≠ sAddr → a ≠ sAddr + 1 →
          memGet (random_ec_point_hint ids mem).2 a = memGet mem a) ∧
    ∀ e, (random_ec_point_hint ids mem).1 = .error e →
      ∀ a, memGet (random_ec_point_hint ids mem).2 a ≠ memGet mem a →
        getRelocatable ids "s" = .ok a ∧
        ∃ xv, memGet (random_ec_point_hint ids mem).2 a = some (.int xv) := by
  rcases hint_cases ids mem with ⟨e, heq⟩ |
    ⟨px, py, qx, qy, m, x, y, sAddr, mem1, hp, hq, hm, hpt, hs, hw1, hrest⟩
  · constructor
    · intro hok
      rw [heq] at hok
      cases hok
    · intro e' _ a hne
      rw [heq] at hne
      exact absurd rfl hne
  · obtain ⟨hget1x, hget1o⟩ := memInsert_ok mem mem1 sAddr (.int x) hw1
    rcases hrest with ⟨e, hw2, heq⟩ | ⟨mem2, hw2, heq⟩
    · constructor
      · intro hok
        rw [heq] at hok
        cases hok
      · intro e' _ a hne
        rw [heq] at hne
        by_cases ha : a = sAddr
        · subst ha
          refine ⟨hs, x, ?_⟩
          rw [heq]
          exact hget1x
        · exact absurd (hget1o a ha) hne
    · obtain ⟨hget2y, hget2o⟩ := memInsert_ok mem1 mem2 (sAddr + 1) (.int y) hw2
      constructor
      · intro _
        refine ⟨sAddr, x, y, hs, ?_, ?_, ⟨px, py, m, qx, qy, hp, hq, hm, hpt⟩, ?_⟩
        · rw [heq]
          rw [hget2o sAddr (by omega)]
          exact hget1x
        · rw [heq]
          exact hget2y
        · intro a hne1 hne2
          rw [heq]
          rw [hget2o a hne2, hget1o a hne1]
      · intro e herr
        rw [heq] at herr
        cases herr

/-- Witness for C2 (amended) at an empty VM state. -/
theorem claim_C2_witness :
    (((random_ec_point_hint [] []).1 = .ok () →
      ∃ sAddr x y,
        getRelocatable [] "s" = .ok sAddr ∧
        memGet (random_ec_point_hint [] []).2 sAddr = some (.int x) ∧
        memGet (random_ec_point_hint [] []).2 (sAddr + 1) = some (.int y) ∧
        (∃ px py m qx qy,
          ecPointFromVarName [] [] "p" = .ok (px, py) ∧
          ecPointFromVarName [] [] "q" = .ok (qx, qy) ∧
          getIntegerFromVarName [] [] "m" = .ok m ∧
          random_ec_point (seedBytesOf px py m qx qy) = .ok (x, y)) ∧
        ∀ a, a ≠ sAddr → a ≠ sAddr + 1 →
          memGet (random_ec_point_hint [] []).2 a = memGet [] a) ∧
    ∀ e, (random_ec_point_hint [] []).1 = .error e →
      ∀ a, memGet (random_ec_point_hint [] []).2 a ≠ memGet [] a →
        getRelocatable [] "s" = .ok a ∧
        ∃ xv, memGet (random_ec_point_hint [] []).2 a = some (.int xv)) :=
  claim_C2_amended [] []

/-- The identifier table of the counterexample: `p` at 0, `q` at 2, `m` at 4,
`s` at 5. -/
def cexIds : Ids := [("p", 0), ("q", 2), ("m", 4), ("s", 5)]

/-- The memory of the counterexample: all five inputs are 0, the cell for
`s.x` (address 5) is free, and the cell for `s.y` (address 6) is occupied by a
conflicting value. -/
def cexMem : Memory :=
  [(0, .int 0), (1, .int 0), (2, .int 0), (3, .int 0), (4, .int 0), (6, .int 0)]

/-- The x-coordinate the hint derives from the all-zero inputs. -/
def cexX : Nat := 2480822187915755705361311456038382415646830363656585234165421059092188232567

set_option maxRecDepth 100000 in
/-- Counterexample to C2 as stated: the hint returns an error (the second
write hits the occupied cell 6), yet the first output cell (address 5, which
was empty) has been written with the derived `x`. -/
theorem claim_C2_counterexample :
    (random_ec_point_hint cexIds cexMem).1 = .error .memoryError ∧
    memGet cexMem 5 = none ∧
    memGet (random_ec_point_hint cexIds cexMem).2 5 = some (.int cexX) := by
  refine ⟨by decide, by decide, by decide⟩

end EcUtils

